import Mathlib

/-!
# Verification of the slinky-do vault server core

A shallow embedding, in Lean 4, of the core functions of the slinky-do
repository (an MCP server managing an Obsidian vault): the path-containment
guard, the checklist parser, the metadata-block codec and merger, the
heuristic metadata inferencer, and the mutating tool handlers
(`add_todo`, `create_note`, `update_note`, `delete_note`, `move_note`,
`daily_note`, `complete_todo`, `enrich_vault`).

JavaScript strings are modelled as Lean `String` (manipulated through their
underlying `List Char`); JavaScript regular-expression operations are
translated into the equivalent deterministic character scanners; the
filesystem is modelled as a map from path to optional content, and each
tool handler is a pure function that returns the list of I/O events it
would perform together with its response, so that ordering properties
(guard before write, invalidation after write) can be stated and proved.
-/

/-! ## JavaScript string primitives -/

/-- Characters treated as whitespace by the JS regex class `\s` and by
`String.prototype.trim` (the ASCII portion, which is all the source uses). -/
def jsWs (c : Char) : Bool :=
  c == ' ' || c == '\t' || c == '\n' || c == '\r' || c == '\x0b' || c == '\x0c'

/-- The JS regex class `\w`: ASCII letters, digits and underscore. -/
def isWordCh (c : Char) : Bool :=
  ('a' ≤ c && c ≤ 'z') || ('A' ≤ c && c ≤ 'Z') || ('0' ≤ c && c ≤ '9') || c == '_'

/-- The JS regex class `\d`. -/
def isDigitCh (c : Char) : Bool :=
  '0' ≤ c && c ≤ '9'

/-- ASCII lower-casing, as `String.prototype.toLowerCase` acts on the
ASCII range (the only range the source compares). -/
def toLowerCh (c : Char) : Char :=
  if 'A' ≤ c && c ≤ 'Z' then Char.ofNat (c.toNat + 32) else c

/-- `startsWithL p l` holds when `p` is an initial segment of `l`. -/
def startsWithL : List Char → List Char → Bool
  | [], _ => true
  | _ :: _, [] => false
  | p :: ps, c :: cs => p == c && startsWithL ps cs

/-- JS `a.startsWith(b)`. -/
def jsStartsWith (s pre : String) : Bool :=
  startsWithL pre.data s.data

/-- JS `a.endsWith(b)`. -/
def jsEndsWith (s suf : String) : Bool :=
  startsWithL suf.data.reverse s.data.reverse

/-- JS `hay.includes(needle)` (substring containment). -/
def containsSub (needle : List Char) : List Char → Bool
  | [] => needle.isEmpty
  | c :: cs => startsWithL needle (c :: cs) || containsSub needle cs

/-- JS `s.includes(t)`. -/
def jsIncludes (s t : String) : Bool :=
  containsSub t.data s.data

/-- JS `s.split(c)` for a one-character separator: always returns at least
one (possibly empty) field. -/
def splitCh (sep : Char) : List Char → List (List Char)
  | [] => [[]]
  | c :: cs =>
    let r := splitCh sep cs
    if c == sep then [] :: r
    else (c :: r.headD []) :: r.tail

/-- Join fields with a one-character separator (inverse of `splitCh`). -/
def joinCh (sep : Char) : List (List Char) → List Char
  | [] => []
  | [f] => f
  | f :: fs => f ++ sep :: joinCh sep fs

/-- JS `String.prototype.trimEnd` (ASCII whitespace). -/
def trimEndL (l : List Char) : List Char :=
  (l.reverse.dropWhile jsWs).reverse

/-- JS `String.prototype.trim` (ASCII whitespace). -/
def trimL (l : List Char) : List Char :=
  trimEndL (l.dropWhile jsWs)

/-- JS `s.trim()`. -/
def jsTrim (s : String) : String :=
  ⟨trimL s.data⟩

/-- JS `s.trimEnd()`. -/
def jsTrimEnd (s : String) : String :=
  ⟨trimEndL s.data⟩

/-- JS `s.toLowerCase()` (ASCII range). -/
def jsToLower (s : String) : String :=
  ⟨s.data.map toLowerCh⟩

/-- JS `s.split("\n")`. -/
def splitNl (s : String) : List String :=
  (splitCh '\n' s.data).map (⟨·⟩)

/-- JS `xs.join("\n")`. -/
def joinNl (ls : List String) : String :=
  ⟨joinCh '\n' (ls.map String.data)⟩

/-- JS `xs.join(sep)` for a string separator. -/
def jsJoin (sep : String) : List String → String
  | [] => ""
  | f :: fs => fs.foldl (fun acc x => acc ++ sep ++ x) f

/-! ## POSIX path model (`node:path` on the posix flavour)

The vault root in the source is an absolute POSIX path, and every path the
handlers build starts from it, so `path.resolve` is modelled for absolute
inputs: split on `/`, drop empty and `.` segments, let `..` pop the last
surviving segment (or vanish at the root), and re-render with a leading
slash. -/

/-- One step of segment normalisation over a reversed stack of segments. -/
def segStep (stack : List (List Char)) (seg : List Char) : List (List Char) :=
  if seg = [] ∨ seg = ['.'] then stack
  else if seg = ['.', '.'] then stack.tail
  else seg :: stack

/-- Resolved segment stack (reversed) of a path. -/
def segStack (l : List Char) : List (List Char) :=
  (splitCh '/' l).foldl segStep []

/-- `path.resolve` for an absolute POSIX path: collapse `.`, `..`, empty
segments and render with a single leading `/` and no trailing `/`. -/
def resolvePath (p : String) : String :=
  ⟨'/' :: joinCh '/' (segStack p.data).reverse⟩

/-- `path.sep` on POSIX. -/
def pathSep : String := "/"

/-- `path.join(a, b)` for an absolute `a`: concatenate with a separator and
normalise. -/
def pathJoin (a b : String) : String :=
  resolvePath (a ++ "/" ++ b)

/-- `path.dirname` (POSIX). -/
def dirname (p : String) : String :=
  let rev := p.data.reverse
  let rest := rev.dropWhile (· ≠ '/')
  match rest with
  | [] => "."
  | _ :: t =>
    match t.reverse with
    | [] => "/"
    | l => ⟨l⟩

/-- `path.basename` (POSIX, one-argument form). -/
def basename (p : String) : String :=
  ⟨(p.data.reverse.takeWhile (· ≠ '/')).reverse⟩

/-- `path.extname` (POSIX): the suffix of the basename from its last dot,
empty when the basename has no dot after its first character. -/
def extname (p : String) : String :=
  let b := (basename p).data
  let revTail := b.reverse.takeWhile (· ≠ '.')
  if revTail.length + 1 < b.length ∨ (revTail.length + 1 = b.length ∧ b.headD ' ' ≠ '.') then
    if revTail.length = b.length then "" else ⟨'.' :: revTail.reverse⟩
  else ""

/-- `path.basename(p, ext)`: the basename with a trailing `ext` removed. -/
def basenameExt (p ext : String) : String :=
  let b := basename p
  if jsEndsWith b ext && ext ≠ "" then ⟨b.data.take (b.data.length - ext.data.length)⟩ else b

/-! ## PathGuard (source: `isPathWithinVault`, part_002 lines 84–88)

```
function isPathWithinVault(targetPath, vaultBase = VAULT_KMW_PATH) {
  const resolved = path.resolve(targetPath);
  const base = path.resolve(vaultBase);
  return resolved === base || resolved.startsWith(base + path.sep);
}
```
-/

def isPathWithinVault (targetPath : String) (vaultBase : String) : Bool :=
  let resolved := resolvePath targetPath
  let base := resolvePath vaultBase
  resolved == base || jsStartsWith resolved (base ++ pathSep)

/-! ### Helper lemmas about prefixes -/

theorem data_app (a b : String) : (a ++ b).data = a.data ++ b.data := by
  cases a; cases b; rfl

theorem startsWithL_iff_take :
    ∀ p l : List Char, startsWithL p l = true ↔ l.take p.length = p := by
  intro p
  induction p with
  | nil => intro l; simp [startsWithL]
  | cons a as ih =>
    intro l
    cases l with
    | nil => simp [startsWithL]
    | cons c cs =>
      simp only [startsWithL, List.length_cons, List.take_succ_cons, Bool.and_eq_true,
        beq_iff_eq, List.cons.injEq, ih cs]
      constructor
      · rintro ⟨h1, h2⟩; exact ⟨h1.symm, h2⟩
      · rintro ⟨h1, h2⟩; exact ⟨h1.symm, h2⟩

/-- C6. The guard accepts exactly the resolved root itself and the strings
that extend the resolved root by a path separator; a sibling folder whose
name merely extends the root's name as a string is rejected while a
descendant is accepted, and `.`/`..` segments are collapsed before the
check. -/
theorem isPathWithinVault_correct :
    (∀ t b : String,
      isPathWithinVault t b = true ↔
        (resolvePath t = resolvePath b ∨
         (resolvePath t).data.take ((resolvePath b).data.length + 1) =
           (resolvePath b).data ++ ['/'])) ∧
    isPathWithinVault "/vault/Sub/doc.md" "/vault" = true ∧
    isPathWithinVault "/vault-other/doc.md" "/vault" = false ∧
    isPathWithinVault "/vault/Sub/../../outside/doc.md" "/vault" = false ∧
    isPathWithinVault "/vault/./Sub/../Sub/doc.md" "/vault" = true := by
  refine ⟨?_, by decide, by decide, by decide, by decide⟩
  intro t b
  unfold isPathWithinVault jsStartsWith
  rw [Bool.or_eq_true, beq_iff_eq, startsWithL_iff_take, data_app]
  have hsep : (pathSep : String).data = ['/'] := rfl
  rw [hsep]
  constructor
  · rintro (h | h)
    · exact Or.inl h
    · right
      have : (resolvePath b).data.length + 1 =
          ((resolvePath b).data ++ ['/']).length := by simp
      rw [this]; exact h
  · rintro (h | h)
    · exact Or.inl h
    · right
      have : ((resolvePath b).data ++ ['/']).length =
          (resolvePath b).data.length + 1 := by simp
      rw [this]; exact h

/-! ## Generic list lemmas used below -/

theorem dropWhile_len_le (p : Char → Bool) : ∀ l : List Char, (l.dropWhile p).length ≤ l.length := by
  intro l
  induction l with
  | nil => simp
  | cons c cs ih =>
    by_cases h : p c
    · simp [List.dropWhile, h]; omega
    · simp [List.dropWhile, h]

theorem drop_takeWhile_len (p : Char → Bool) :
    ∀ l : List Char, l.drop (l.takeWhile p).length = l.dropWhile p := by
  intro l
  induction l with
  | nil => simp
  | cons c cs ih =>
    by_cases h : p c
    · simp [List.takeWhile, List.dropWhile, h, ih]
    · simp [List.takeWhile, List.dropWhile, h]

/-! ## ChecklistParser (source: `parseTodos`, part_002 lines 333–362)

```
const match = line.match(/^-\s*\[([ xX])\]\s*(.*)$/);
...
const tagMatches = rest.match(/#\w+/g) || [];
const tags = tagMatches.map(t => t.substring(1));
const text = rest.replace(/#\w+\s*/g, '').trim();
```
-/

structure TodoItem where
  id : Nat
  text : String
  completed : Bool
  tags : List String
  line : Nat
deriving DecidableEq, Repr

/-- Whether the next character exists and is a word character — i.e.
whether `\w+` can match at least one character here. -/
def headWord : List Char → Bool
  | [] => false
  | c :: _ => isWordCh c

/-- The global scan of `rest.match(/#\w+/g)`, already stripped of the
leading `#` (the source applies `t.substring(1)` to each match), rendered
as a one-pass machine: `none` is the searching state, `some acc` means a
match is in progress with the (reversed) word characters read so far.  At
each `#` followed by at least one word character a match starts; inside a
match, word characters are accumulated, and the match is emitted when a
non-word character (or the end) is reached, after which the engine
continues searching at that very character. -/
def tagGo : Option (List Char) → List Char → List (List Char)
  | none, [] => []
  | some acc, [] => [acc.reverse]
  | none, c :: rest =>
    if c == '#' && headWord rest then tagGo (some []) rest else tagGo none rest
  | some acc, c :: rest =>
    if isWordCh c then tagGo (some (c :: acc)) rest
    else if c == '#' && headWord rest then acc.reverse :: tagGo (some []) rest
    else acc.reverse :: tagGo none rest

/-- `rest.match(/#\w+/g)` with the `#` stripped from each match. -/
def tagScan (l : List Char) : List (List Char) :=
  tagGo none l

/-- States of the replace machine for `/#\w+\s*/g`: searching, deleting the
word run of a match, or deleting the whitespace run that closes a match. -/
inductive StripMode where
  | norm
  | word
  | ws
deriving DecidableEq, Repr

/-- The global replace `rest.replace(/#\w+\s*/g, '')`, rendered as a
one-pass machine: each tag token together with the whitespace run
immediately following it is deleted; every other character is kept.  When
a match ends at a character, that character is re-examined in the
searching state (it may itself start the next match). -/
def stripGo : StripMode → List Char → List Char
  | _, [] => []
  | .norm, c :: rest =>
    if c == '#' && headWord rest then stripGo .word rest
    else c :: stripGo .norm rest
  | .word, c :: rest =>
    if isWordCh c then stripGo .word rest
    else if jsWs c then stripGo .ws rest
    else if c == '#' && headWord rest then stripGo .word rest
    else c :: stripGo .norm rest
  | .ws, c :: rest =>
    if jsWs c then stripGo .ws rest
    else if c == '#' && headWord rest then stripGo .word rest
    else c :: stripGo .norm rest

/-- `rest.replace(/#\w+\s*/g, '')`. -/
def stripTagsScan (l : List Char) : List Char :=
  stripGo .norm l

/-- The line regex `^-\s*\[([ xX])\]\s*(.*)$`: a dash at the first column,
optional whitespace, a bracketed space/x/X, optional whitespace, then the
remainder.  Returns the bracket character and the remainder. -/
def matchTodoLine (l : List Char) : Option (Char × List Char) :=
  match l with
  | '-' :: r =>
    match r.dropWhile jsWs with
    | '[' :: c :: ']' :: r2 =>
      if c == ' ' || c == 'x' || c == 'X' then some (c, r2.dropWhile jsWs) else none
    | _ => none
  | _ => none

/-- `parseTodos` body: iterate over the lines carrying the 0-based line
index and the number of items matched so far (`todos.length`). -/
def parseTodosAux : List String → Nat → Nat → List TodoItem
  | [], _, _ => []
  | line :: rest, idx, count =>
    match matchTodoLine line.data with
    | some (c, r) =>
      { id := count + 1
        text := jsTrim ⟨stripTagsScan r⟩
        completed := toLowerCh c == 'x'
        tags := (tagScan r).map (⟨·⟩)
        line := idx + 1 } :: parseTodosAux rest (idx + 1) (count + 1)
    | none => parseTodosAux rest (idx + 1) count

/-- Source: `parseTodos` (part_002 lines 333–362). -/
def parseTodos (content : String) : List TodoItem :=
  parseTodosAux (splitNl content) 0 0

example : parseTodos "- [ ] #a #b Buy milk" =
    [{ id := 1, text := "Buy milk", completed := false, tags := ["a", "b"], line := 1 }] := by
  decide

/-! ## Spec-side formulations of the tag rules (spec §4.2) -/

/-- Spec §4.2: "tag tokens = every run of `#` followed by word characters
found anywhere in the remainder, extracted in left-to-right order, with the
`#` stripped". -/
def specTags : List Char → List (List Char)
  | [] => []
  | c :: rest =>
    if c == '#' && !(rest.takeWhile isWordCh).isEmpty then
      rest.takeWhile isWordCh :: specTags (rest.dropWhile isWordCh)
    else specTags rest
termination_by l => l.length
decreasing_by
  all_goals simp only [List.length_cons]
  all_goals first
    | exact Nat.lt_succ_of_le (le_trans (dropWhile_len_le _ _) (dropWhile_len_le _ _))
    | exact Nat.lt_succ_of_le (dropWhile_len_le _ _)
    | omega

/-- Amended text rule: "the remainder with every tag token and all
immediately following whitespace removed" (the claim said one trailing
space; the source's `\s*` removes the whole whitespace run). -/
def specStrip : List Char → List Char
  | [] => []
  | c :: rest =>
    if c == '#' && !(rest.takeWhile isWordCh).isEmpty then
      specStrip ((rest.dropWhile isWordCh).dropWhile jsWs)
    else c :: specStrip rest
termination_by l => l.length
decreasing_by
  all_goals simp only [List.length_cons]
  all_goals first
    | exact Nat.lt_succ_of_le (le_trans (dropWhile_len_le _ _) (dropWhile_len_le _ _))
    | exact Nat.lt_succ_of_le (dropWhile_len_le _ _)
    | omega

/-- The claim's literal text rule, one-pass: each tag token and at most one
trailing space removed (`true` = currently deleting the word run of a
token). -/
def oneSpaceGo : Bool → List Char → List Char
  | _, [] => []
  | false, c :: rest =>
    if c == '#' && headWord rest then oneSpaceGo true rest
    else c :: oneSpaceGo false rest
  | true, c :: rest =>
    if isWordCh c then oneSpaceGo true rest
    else if c == ' ' then oneSpaceGo false rest
    else if c == '#' && headWord rest then oneSpaceGo true rest
    else c :: oneSpaceGo false rest

/-- The claim's literal reading of the text rule: every tag token and one
trailing space removed. -/
def oneSpaceStrip (l : List Char) : List Char :=
  oneSpaceGo false l

/-! ### The one-pass machines agree with the spec-side scanners -/

theorem headWord_eq (l : List Char) : headWord l = !(l.takeWhile isWordCh).isEmpty := by
  cases l with
  | nil => rfl
  | cons c rest =>
    by_cases h : isWordCh c
    · simp [headWord, List.takeWhile, h]
    · simp [headWord, List.takeWhile, h]

theorem tagGo_some (l : List Char) :
    ∀ acc, tagGo (some acc) l =
      (acc.reverse ++ l.takeWhile isWordCh) :: tagGo none (l.dropWhile isWordCh) := by
  induction l with
  | nil => intro acc; simp [tagGo]
  | cons c rest ih =>
    intro acc
    by_cases h : isWordCh c
    · simp only [tagGo, h, if_pos, List.takeWhile_cons, List.dropWhile_cons]
      rw [ih (c :: acc)]
      simp [h]
    · by_cases hc : (c == '#' && headWord rest) = true
      · simp [tagGo, h, hc, List.takeWhile_cons, List.dropWhile_cons]
      · simp [tagGo, h, hc, List.takeWhile_cons, List.dropWhile_cons]

theorem tagGo_none_eq : ∀ l : List Char, tagGo none l = specTags l := by
  intro l
  induction l using specTags.induct with
  | case1 => simp [tagGo, specTags]
  | case2 c rest hcond ih =>
    have hw : (c == '#' && headWord rest) = true := by
      rw [headWord_eq]; exact hcond
    simp only [specTags, hcond, if_pos, tagGo, hw, tagGo_some, ih]
    simp
  | case3 c rest hcond ih =>
    have hw : ¬(c == '#' && headWord rest) = true := by
      rw [headWord_eq]; exact hcond
    simp only [specTags, tagGo, ih]
    rw [if_neg hw, if_neg hcond]

theorem stripGo_word (l : List Char) :
    stripGo .word l = stripGo .ws (l.dropWhile isWordCh) := by
  induction l with
  | nil => simp [stripGo]
  | cons c rest ih =>
    by_cases h : isWordCh c
    · simp only [List.dropWhile_cons, h, if_pos, stripGo, ih]
    · simp only [List.dropWhile_cons, h, stripGo]
      by_cases hw : jsWs c = true
      · simp [stripGo, h, hw]
      · by_cases hc : (c == '#' && headWord rest) = true
        · simp [stripGo, h, hw, hc]
        · simp [stripGo, h, hw, hc]

theorem stripGo_ws (l : List Char) :
    stripGo .ws l = stripGo .norm (l.dropWhile jsWs) := by
  induction l with
  | nil => simp [stripGo]
  | cons c rest ih =>
    by_cases h : jsWs c
    · simp only [List.dropWhile_cons, h, if_pos, stripGo, ih]
    · simp only [List.dropWhile_cons, h, stripGo]
      by_cases hc : (c == '#' && headWord rest) = true
      · simp [stripGo, h, hc]
      · simp [stripGo, h, hc]

theorem tagScan_eq (l : List Char) : tagScan l = specTags l :=
  tagGo_none_eq l

theorem stripGo_norm_eq : ∀ l : List Char, stripGo .norm l = specStrip l := by
  intro l
  induction l using specStrip.induct with
  | case1 => simp [stripGo, specStrip]
  | case2 c rest hcond ih =>
    have hw : (c == '#' && headWord rest) = true := by
      rw [headWord_eq]; exact hcond
    simp only [specStrip, hcond, if_pos, stripGo, hw, stripGo_word, stripGo_ws, ih]
  | case3 c rest hcond ih =>
    have hw : ¬(c == '#' && headWord rest) = true := by
      rw [headWord_eq]; exact hcond
    simp only [specStrip, stripGo, ih]
    rw [if_neg hw, if_neg hcond]

theorem stripTagsScan_eq (l : List Char) : stripTagsScan l = specStrip l :=
  stripGo_norm_eq l

/-- C7 counterexample.  On the line `- [ ] x #a  b` (two spaces after the
tag) the parser's text is `"x b"` — the source's `/#\w+\s*/g` deletes the
whole whitespace run after the tag token — while the claim's rule (every
tag token and one trailing space removed, then trimmed) yields `"x  b"`. -/
theorem parseTodos_text_rule_counterexample :
    (parseTodos "- [ ] x #a  b").map TodoItem.text = ["x b"] ∧
    jsTrim ⟨oneSpaceStrip ("x #a  b".data)⟩ = "x  b" ∧
    ("x b" : String) ≠ "x  b" :=
  ⟨by decide, by decide, by decide⟩

/-- C7 (amended).  Parsing `- [ ] #a #b Buy milk` yields exactly one item
with text "Buy milk", tags ["a","b"] in order of first appearance with the
`#` stripped, completed = false and id = 1; in general the parser's tag
tokens are every run of `#` followed by word characters anywhere in the
remainder in left-to-right order with the `#` stripped, and the item text
is the remainder with every tag token and all immediately following
whitespace removed, then trimmed. -/
theorem parseTodos_scenario_and_rules :
    parseTodos "- [ ] #a #b Buy milk" =
      [{ id := 1, text := "Buy milk", completed := false, tags := ["a", "b"], line := 1 }] ∧
    (∀ rest : List Char, tagScan rest = specTags rest) ∧
    (∀ rest : List Char, jsTrim ⟨stripTagsScan rest⟩ = jsTrim ⟨specStrip rest⟩) := by
  refine ⟨by decide, tagGo_none_eq, ?_⟩
  intro rest
  unfold stripTagsScan
  rw [stripGo_norm_eq]

/-! ## The indentation-aware checklist parser (C3)

Modelled from the spec: the current snapshot's indentation-aware
`parseTodos` is not among the source files — only its tests
(`index.handlers.test.ts`, which import it from `./index.js` and assert an
`indent` field that counts leading whitespace characters, tabs and spaces
alike) and spec §4.2 describe it.  The line pattern is "optional leading
whitespace, a list marker, a bracketed single character that is space/x/X,
then the rest of the line" (regex `^(\s*)-\s*\[([ xX])\]\s*(.*)$`), and
`indent` is the count of leading whitespace units before the marker; all
other fields behave as in the `parseTodos` that is in src/. -/

structure TodoItemIndent where
  id : Nat
  text : String
  completed : Bool
  tags : List String
  indent : Nat
  line : Nat
deriving DecidableEq, Repr

/-- Modelled from the spec: the line matcher of the indentation-aware
parser, regex-engine style — greedy leading `\s*` (captured, its length is
the indent), `-`, `\s*`, `[`, one of space/x/X, `]`, `\s*`, remainder. -/
def matchTodoLineIndent (l : List Char) : Option (Nat × Char × List Char) :=
  let ws := l.takeWhile jsWs
  match l.dropWhile jsWs with
  | m :: r =>
    if m == '-' then
      match r.dropWhile jsWs with
      | b :: c :: b2 :: r2 =>
        if b == '[' && b2 == ']' && (c == ' ' || c == 'x' || c == 'X') then
          some (ws.length, c, r2.dropWhile jsWs)
        else none
      | _ => none
    else none
  | [] => none

/-- Modelled from the spec: the indentation-aware parser's line loop,
carrying the 0-based line index and the count of items matched so far. -/
def parseTodosIndentAux : List String → Nat → Nat → List TodoItemIndent
  | [], _, _ => []
  | line :: rest, idx, count =>
    match matchTodoLineIndent line.data with
    | some (ind, c, r) =>
      { id := count + 1
        text := jsTrim ⟨stripTagsScan r⟩
        completed := toLowerCh c == 'x'
        tags := (tagScan r).map (⟨·⟩)
        indent := ind
        line := idx + 1 } :: parseTodosIndentAux rest (idx + 1) (count + 1)
    | none => parseTodosIndentAux rest (idx + 1) count

/-- Modelled from the spec: the indentation-aware `parse(text)`. -/
def parseTodosIndent (content : String) : List TodoItemIndent :=
  parseTodosIndentAux (splitNl content) 0 0

/-- Spec-side reading of one checklist line (§4.2 and the data model):
"optional leading whitespace, a list marker, a bracketed single character
that is space/x/X, then the rest"; indentation depth = count of leading
whitespace units before the list marker; completion = bracket character is
x/X (case-insensitive); tags and text by the spec scanners.  Ids are
assigned by a separate later pass. -/
def specLineItem (idx : Nat) (line : String) : Option TodoItemIndent :=
  let l := line.data
  let ws := l.takeWhile jsWs
  match l.drop ws.length with
  | m :: r =>
    if m == '-' then
      match r.dropWhile jsWs with
      | b :: c :: b2 :: r2 =>
        if b == '[' && b2 == ']' && (c == ' ' || c == 'x' || c == 'X') then
          some { id := 0
                 text := jsTrim ⟨specStrip (r2.dropWhile jsWs)⟩
                 completed := c == 'x' || c == 'X'
                 tags := (specTags (r2.dropWhile jsWs)).map (⟨·⟩)
                 indent := ws.length
                 line := idx + 1 }
        else none
      | _ => none
    else none
  | [] => none

/-- Spec-side first pass: collect the matching lines in document order. -/
def specCollect : Nat → List String → List TodoItemIndent
  | _, [] => []
  | idx, line :: rest =>
    match specLineItem idx line with
    | some it => it :: specCollect (idx + 1) rest
    | none => specCollect (idx + 1) rest

/-- Spec-side second pass: "id is assigned as a running counter over
matching lines only, starting at 1". -/
def renumber : Nat → List TodoItemIndent → List TodoItemIndent
  | _, [] => []
  | n, it :: rest => { it with id := n + 1 } :: renumber (n + 1) rest

/-- Spec-side parser: collect matching lines, then number them. -/
def specChecklistParse (content : String) : List TodoItemIndent :=
  renumber 0 (specCollect 0 (splitNl content))

theorem specLineItem_eq (idx : Nat) (line : String) :
    specLineItem idx line =
      (matchTodoLineIndent line.data).map (fun d =>
        { id := 0
          text := jsTrim ⟨stripTagsScan d.2.2⟩
          completed := toLowerCh d.2.1 == 'x'
          tags := (tagScan d.2.2).map (⟨·⟩)
          indent := d.1
          line := idx + 1 }) := by
  unfold specLineItem matchTodoLineIndent
  simp only [drop_takeWhile_len]
  cases hd : line.data.dropWhile jsWs with
  | nil => rfl
  | cons m r =>
    by_cases hm : (m == '-') = true
    · simp only [hm, if_pos]
      cases hr : r.dropWhile jsWs with
      | nil => rfl
      | cons b t =>
        cases t with
        | nil => rfl
        | cons c t2 =>
          cases t2 with
          | nil => rfl
          | cons b2 r2 =>
            by_cases hb : (b == '[' && b2 == ']' && (c == ' ' || c == 'x' || c == 'X')) = true
            · simp only [hb, if_pos, Option.map_some]
              have hc : (c == 'x' || c == 'X') = (toLowerCh c == 'x') := by
                simp only [Bool.and_eq_true, Bool.or_eq_true, beq_iff_eq] at hb
                rcases hb.2 with (h | h) | h <;> subst h <;> decide
              simp [hc, stripTagsScan_eq, tagScan_eq]
            · simp [hb]
    · simp [hm]

theorem parseTodosIndentAux_eq :
    ∀ (lines : List String) (idx count : Nat),
      parseTodosIndentAux lines idx count = renumber count (specCollect idx lines) := by
  intro lines
  induction lines with
  | nil => intro idx count; rfl
  | cons line rest ih =>
    intro idx count
    simp only [parseTodosIndentAux, specCollect, specLineItem_eq]
    cases hm : matchTodoLineIndent line.data with
    | none => simpa using ih (idx + 1) count
    | some d =>
      obtain ⟨ind, c, r⟩ := d
      simp only [Option.map_some, renumber, ih (idx + 1) (count + 1)]

/-- C3 (spec-modelled).  The indentation-aware parser equals the two-pass
spec reading — match each line against "optional leading whitespace, list
marker, bracketed space/x/X, remainder" recording an indent equal to the
count of leading whitespace units, then number the matches — and indented
checklist lines are parsed as items with their indent level exposed. -/
theorem parseTodosIndent_correct :
    (∀ content : String, parseTodosIndent content = specChecklistParse content) ∧
    (parseTodosIndent "\t- [ ] sub").map (fun t => (t.indent, t.text)) = [(1, "sub")] ∧
    (parseTodosIndent "  - [x] done").map (fun t => (t.indent, t.completed, t.id)) =
      [(2, true, 1)] ∧
    (parseTodosIndent "- [ ] a\n\t- [ ] b\n\t\t- [ ] c").map (fun t => (t.id, t.indent, t.line)) =
      [(1, 0, 1), (2, 1, 2), (3, 2, 3)] :=
  ⟨fun content => parseTodosIndentAux_eq (splitNl content) 0 0, by decide, by decide, by decide⟩

/-! ## JS string ordering and sorting

`Array.prototype.sort()` with no comparator sorts strings by code-unit
lexicographic order; `js-yaml`'s `sortKeys: true` uses the same order.
Everything here is structurally recursive so the kernel can evaluate it. -/

/-- Lexicographic comparison of character lists by code point. -/
def lexLe : List Char → List Char → Bool
  | [], _ => true
  | _ :: _, [] => false
  | a :: as, b :: bs =>
    if a.toNat == b.toNat then lexLe as bs else decide (a.toNat < b.toNat)

/-- JS default string comparison (`a <= b`). -/
def jsLeStr (a b : String) : Bool :=
  lexLe a.data b.data

/-- Insertion into a sorted list under a boolean "less or equal". -/
def insertBy (le : α → α → Bool) (x : α) : List α → List α
  | [] => [x]
  | y :: ys => if le x y then x :: y :: ys else y :: insertBy le x ys

/-- Insertion sort under a boolean "less or equal" (a stable model of
`Array.prototype.sort`). -/
def sortBy (le : α → α → Bool) : List α → List α
  | [] => []
  | x :: xs => insertBy le x (sortBy le xs)

/-- JS `new Set(xs)` as an insertion-ordered duplicate-free list:
elements are added in order, duplicates ignored. -/
def setAdd (l : List String) (x : String) : List String :=
  if x ∈ l then l else l ++ [x]

/-- The element list of `new Set(xs)`. -/
def jsSetOf (l : List String) : List String :=
  l.foldl setAdd []

/-! ## MetadataCodec

The on-disk framing is from the source (`parseFrontmatter`, part_002
lines 188–205, and the writers in `update_note` lines 1330–1334 and
`enrich_vault` lines 917–919).  The mapping syntax inside the frame is the
restricted subset the repository writes, with string and
sequence-of-string values. -/

inductive Value where
  | str (s : String)
  | list (xs : List String)
deriving DecidableEq, Repr

abbrev Fm := List (String × Value)

/-- JS object property read (объект keys are unique; first match). -/
def objGet : Fm → String → Option Value
  | [], _ => none
  | (k', v) :: rest, k => if k' == k then some v else objGet rest k

/-- JS object property write: updating an existing key keeps its position,
a new key is appended. -/
def objSet : Fm → String → Value → Fm
  | [], k, v => [(k, v)]
  | (k', v') :: rest, k, v =>
    if k' == k then (k', v) :: rest else (k', v') :: objSet rest k v

/-- JS truthiness of a possibly-absent restricted value (`undefined`,
`""` are falsy; a non-empty string and any array are truthy). -/
def truthyVal : Option Value → Bool
  | none => false
  | some (.str s) => !(s == "")
  | some (.list _) => true

/-- Index of the first occurrence of `pat` in a character list. -/
def findSub (pat : List Char) : List Char → Option Nat
  | [] => if pat.isEmpty then some 0 else none
  | c :: cs =>
    if startsWithL pat (c :: cs) then some 0
    else (findSub pat cs).map (· + 1)

/-- The framing of `parseFrontmatter`: `content.startsWith('---')`, then
the regex `/^---\n(.*?)\n---\n(.*)$/s` — the lazy group ends at the first
occurrence of `"\n---\n"` after the opening `"---\n"`; everything after
that occurrence (including the blank separator line the writer emits) is
the second group. -/
def fmFraming (content : String) : Option (String × String) :=
  if jsStartsWith content "---" then
    if startsWithL ("---\n".data) content.data then
      let r := content.data.drop 4
      match findSub ("\n---\n".data) r with
      | some i => some (⟨r.take i⟩, ⟨r.drop (i + 5)⟩)
      | none => none
    else none
  else none

/-- Modelled from js-yaml: `yaml.load` on the restricted subset the
repository writes — `key: value` plain scalar lines, `key: []`, and block
sequences `key:` followed by `  - item` lines; blank lines are skipped;
anything else is a load failure (the source catches the exception and
returns null).  The first component carries a block sequence in progress
(key and reversed items). -/
def loadGo : Option (String × List String) → List (List Char) → Option Fm
  | none, [] => some []
  | some (k, acc), [] => some [(k, Value.list acc.reverse)]
  | pending, line :: rest =>
    if startsWithL ("  - ".data) line then
      match pending with
      | some (k, acc) => loadGo (some (k, (⟨line.drop 4⟩ : String) :: acc)) rest
      | none => none
    else
      match pending with
      | some (_, []) => none
      | _ =>
        let closed : Fm :=
          match pending with
          | some (k, acc) => [(k, Value.list acc.reverse)]
          | none => []
        if trimL line = [] then (loadGo none rest).map (closed ++ ·)
        else
          match findSub [':'] line with
          | none => none
          | some j =>
            let key : String := ⟨line.take j⟩
            match line.drop (j + 1) with
            | [] => (loadGo (some (key, [])) rest).map (closed ++ ·)
            | ' ' :: v =>
              if v = "[]".data then
                (loadGo none rest).map (fun fm => closed ++ (key, Value.list []) :: fm)
              else if v.isEmpty then none
              else (loadGo none rest).map (fun fm => closed ++ (key, Value.str ⟨v⟩) :: fm)
            | _ => none

/-- Restricted `yaml.load` over the material between the delimiters. -/
def loadRestricted (region : String) : Option Fm :=
  loadGo none (splitCh '\n' region.data)

/-- `parseFrontmatter` over the restricted mapping model: framing plus
restricted load; any failure is `null` in the source. -/
def parseFrontmatterFm (content : String) : Option (Fm × String) :=
  match fmFraming content with
  | some (y, body) =>
    match loadRestricted y with
    | some fm => some (fm, body)
    | none => none
  | none => none

/-- Modelled from js-yaml: one entry of `yaml.dump(..., lineWidth -1)` on
the restricted subset — plain scalar, empty flow sequence, or block
sequence with two-space indent. -/
def dumpEntry : String × Value → String
  | (k, .str s) => k ++ ": " ++ s ++ "\n"
  | (k, .list []) => k ++ ": []\n"
  | (k, .list xs) => k ++ ":\n" ++ String.join (xs.map (fun x => "  - " ++ x ++ "\n"))

/-- Modelled from js-yaml: `yaml.dump(fm, sortKeys true, lineWidth -1)`. -/
def dumpFm (fm : Fm) : String :=
  String.join ((sortBy (fun a b => jsLeStr a.1 b.1) fm).map dumpEntry)

/-- The writer of `update_note` and `enrich_vault`:
`` `---\n${yamlStr}---\n\n${body}` ``. -/
def serializeNote (fm : Fm) (body : String) : String :=
  "---\n" ++ dumpFm fm ++ "---\n\n" ++ body

/-- C2 (code bug).  Encoding the block `(title: x)` with body `hello` and
decoding the result returns the mapping unchanged but the body `"\nhello"`:
the decode regex `^---\n(.*?)\n---\n(.*)$` leaves the blank separator line
of the three-line skeleton inside the body group, so
`decode(encode(block, body))` prepends one newline to the body instead of
reproducing it byte-for-byte (each `update_note`/`enrich_vault` rewrite
therefore grows the document by one blank line).  The same holds with a
sequence-valued `tags` field. -/
theorem frontmatter_roundtrip_keeps_separator_in_body :
    serializeNote [("title", Value.str "x")] "hello" = "---\ntitle: x\n---\n\nhello" ∧
    parseFrontmatterFm "---\ntitle: x\n---\n\nhello" =
      some ([("title", Value.str "x")], "\nhello") ∧
    parseFrontmatterFm (serializeNote [("tags", Value.list ["a", "b"]), ("title", Value.str "x")] "hello") =
      some ([("tags", Value.list ["a", "b"]), ("title", Value.str "x")], "\nhello") ∧
    ("\nhello" : String) ≠ "hello" :=
  ⟨by decide, by decide, by decide, by decide⟩

/-! ## MetadataInferencer (source: `inferMetadataFromPath`,
`inferTagsFromContent`, part_002 lines 91–186) -/

/-- Source `InferredMetadata` (the `type` field is `typ` here because
`type` is reserved in Lean); `tags` is the element list of the JS `Set`,
in insertion order. -/
structure InferredMetadata where
  title : String
  tags : List String
  customer : Option String
  project : Option String
  typ : Option String
  status : String
  date : Option String
deriving DecidableEq, Repr

/-- `fileName.replace(/\.md$/, '')`. -/
def stripMdSuffix (name : String) : String :=
  if jsEndsWith name ".md" then ⟨name.data.take (name.data.length - 3)⟩ else name

/-- `.replace(/_/g, ' ')`. -/
def underscoresToSpaces (s : String) : String :=
  ⟨s.data.map (fun c => if c == '_' then ' ' else c)⟩

/-- `fileName.match(/(\d{8})/)`: the leftmost run of 8 consecutive digits
(the first 8 of a longer run). -/
def find8 : List Char → Option (List Char)
  | [] => none
  | c :: rest =>
    let p := (c :: rest).take 8
    if p.length == 8 && p.all isDigitCh then some p else find8 rest

/-- Source `inferMetadataFromPath` (part_002 lines 91–160): title from the
filename, first-match customer/project/type rules over the path, date from
the first 8-digit run of the filename read as MMDDYYYY. -/
def inferMetadataFromPath (filePath fileName : String) : InferredMetadata :=
  let m0 : InferredMetadata :=
    { title := underscoresToSpaces (stripMdSuffix fileName)
      tags := []
      customer := none
      project := none
      typ := none
      status := "active"
      date := none }
  let m1 :=
    if jsIncludes filePath "Customers/Gartner" then
      { m0 with customer := some "gartner", tags := setAdd m0.tags "gartner" }
    else if jsIncludes filePath "Customers/Nasuni" then
      { m0 with customer := some "nasuni", tags := setAdd m0.tags "nasuni" }
    else if jsIncludes filePath "Customers/ThermoFisher" then
      { m0 with customer := some "thermofisher", tags := setAdd m0.tags "thermofisher" }
    else m0
  let m2 :=
    if jsIncludes filePath "Hyrule Project" then
      { m1 with project := some "hyrule", tags := setAdd m1.tags "hyrule" }
    else if jsIncludes filePath "Weekly Insights" then
      { m1 with project := some "weekly-insights" }
    else if jsIncludes filePath "Lucille" then
      { m1 with project := some "lucille", tags := setAdd m1.tags "lucille" }
    else m1
  let m3 :=
    if jsIncludes filePath "Standups" then
      { m2 with typ := some "standup", tags := setAdd m2.tags "standup" }
    else if jsIncludes filePath "Documentation" || jsIncludes filePath "Docs" then
      { m2 with typ := some "documentation", tags := setAdd m2.tags "docs" }
    else if jsIncludes filePath "Research" then
      { m2 with typ := some "research", tags := setAdd m2.tags "research" }
    else if jsIncludes filePath "Governance" then
      { m2 with typ := some "governance", tags := setAdd m2.tags "governance" }
    else if jsIncludes filePath "Working Sessions" then
      { m2 with typ := some "working-session", tags := setAdd m2.tags "working-session" }
    else if jsIncludes filePath "Configs and Keys" then
      { m2 with typ := some "config", tags := setAdd m2.tags "config" }
    else if jsIncludes filePath "Technical" then
      { m2 with typ := some "technical", tags := setAdd m2.tags "technical" }
    else if jsIncludes filePath "Code references" then
      { m2 with typ := some "code-reference", tags := setAdd m2.tags "code-ref" }
    else m2
  match find8 fileName.data with
  | some ds =>
    { m3 with
      date := some ((⟨ds.drop 4⟩ : String) ++ "-" ++ (⟨ds.take 2⟩ : String) ++ "-"
        ++ (⟨(ds.drop 2).take 2⟩ : String)) }
  | none => m3

/-- Source `inferTagsFromContent` (part_002 lines 162–186): a `Set` seeded
with the existing tags, grown by substring checks over the lowercased
content, returned sorted. -/
def inferTagsFromContent (content : String) (existingTags : List String) : List String :=
  let cl := jsToLower content
  let inc := fun (s : String) => jsIncludes cl s
  let tags := jsSetOf existingTags
  let tags := if inc "opensearch" then setAdd tags "opensearch" else tags
  let tags := if inc "lucille" then setAdd tags "lucille" else tags
  let tags := if inc "kubernetes" || inc "eks" then setAdd tags "kubernetes" else tags
  let tags := if inc "aws" || inc "sagemaker" then setAdd tags "aws" else tags
  let tags := if inc "python" then setAdd tags "python" else tags
  let tags := if inc "java" then setAdd tags "java" else tags
  let tags := if inc "docker" then setAdd tags "docker" else tags
  let tags := if inc "security" || inc "cve-" then setAdd tags "security" else tags
  let tags := if inc "architecture" then setAdd tags "architecture" else tags
  let tags := if inc "hybrid" || inc "bm25" || inc "neural" then setAdd tags "hybrid-search" else tags
  let tags := if inc "ltr" || inc "learning to rank" then setAdd tags "ltr" else tags
  let tags := if inc "relevancy" || inc "relevance" then setAdd tags "relevancy" else tags
  let tags := if inc "spellcheck" || inc "fuzziness" then setAdd tags "search-features" else tags
  sortBy jsLeStr tags

/-- Source `fixMalformedDate` (part_002 lines 226–243). -/
def fixMalformedDate (date : String) (fileName : String) : String :=
  let shapeOk :=
    date.data.length == 10 &&
    (date.data.take 4).all isDigitCh &&
    (date.data.drop 4).headD ' ' == '-' &&
    ((date.data.drop 5).take 2).all isDigitCh &&
    (date.data.drop 7).headD ' ' == '-' &&
    ((date.data.drop 8).take 2).all isDigitCh
  if shapeOk && jsStartsWith date "0" then
    match find8 fileName.data with
    | some ds =>
      let corrected := (⟨ds.drop 4⟩ : String) ++ "-" ++ (⟨ds.take 2⟩ : String) ++ "-"
        ++ (⟨(ds.drop 2).take 2⟩ : String)
      if corrected ≠ date then corrected else date
    | none => date
  else date

/-! ## MetadataMerger (source: `mergeFrontmatter`, part_002 lines 207–224) -/

/-- `new Set(merged.tags || [])`: absent or falsy gives the empty set, an
array is iterated element-wise, and a truthy string is iterated
character-wise (JS iterable semantics). -/
def tagsIter : Option Value → List String
  | some (.list xs) => xs
  | some (.str s) => if s == "" then [] else s.data.map (fun c => (⟨[c]⟩ : String))
  | none => []

/-- `if (!merged.title) merged.title = inferred.title;` -/
def mergeTitle (m : Fm) (i : InferredMetadata) : Fm :=
  if !(truthyVal (objGet m "title")) then objSet m "title" (.str i.title) else m

/-- `if (!merged.K && inferred.K) merged.K = inferred.K;` for the optional
inferred fields date/customer/project/type. -/
def mergeOptField (m : Fm) (k : String) (o : Option String) : Fm :=
  match o with
  | some d => if !(truthyVal (objGet m k)) && !(d == "") then objSet m k (.str d) else m
  | none => m

/-- `if (!merged.status) merged.status = inferred.status;` -/
def mergeStatus (m : Fm) (i : InferredMetadata) : Fm :=
  if !(truthyVal (objGet m "status")) then objSet m "status" (.str i.status) else m

/-- The merged, deduplicated, sorted tag union written by the source:
`Array.from(new Set([...new Set(merged.tags || []), ...new Set(inferred.tags)])).sort()`. -/
def mergedTagList (tagsVal : Option Value) (inferredTags : List String) : List String :=
  sortBy jsLeStr (jsSetOf (jsSetOf (tagsIter tagsVal) ++ jsSetOf inferredTags))

/-- `merged.tags = ...` -/
def mergeTags (m : Fm) (i : InferredMetadata) : Fm :=
  objSet m "tags" (.list (mergedTagList (objGet m "tags") i.tags))

/-- Source `mergeFrontmatter`: fill `title`, `date`, `customer`, `project`,
`type`, `status` only when absent or falsy, then rewrite `tags` with the
sorted deduplicated union. -/
def mergeFrontmatter (existing : Fm) (inferred : InferredMetadata) : Fm :=
  mergeTags
    (mergeStatus
      (mergeOptField
        (mergeOptField
          (mergeOptField
            (mergeOptField (mergeTitle existing inferred) "date" inferred.date)
            "customer" inferred.customer)
          "project" inferred.project)
        "type" inferred.typ)
      inferred)
    inferred

/-! ## Order, sort and set lemmas -/

/-- The string order used by `Array.prototype.sort()` as a relation. -/
def strRel (a b : String) : Prop :=
  jsLeStr a b = true

instance : DecidableRel strRel := fun a b => instDecidableEqBool (jsLeStr a b) true

theorem lexLe_total : ∀ a b : List Char, lexLe a b = true ∨ lexLe b a = true := by
  intro a
  induction a with
  | nil => intro b; left; rfl
  | cons x xs ih =>
    intro b
    cases b with
    | nil => right; rfl
    | cons y ys =>
      simp only [lexLe, beq_iff_eq]
      by_cases h : x.toNat = y.toNat
      · rcases ih ys with hl | hr
        · left; rw [if_pos h]; exact hl
        · right; rw [if_pos h.symm]; exact hr
      · rcases Nat.lt_or_ge x.toNat y.toNat with hlt | hge
        · left; rw [if_neg h, decide_eq_true_eq]; exact hlt
        · right; rw [if_neg (fun e => h e.symm), decide_eq_true_eq]; omega

theorem lexLe_trans :
    ∀ a b c : List Char, lexLe a b = true → lexLe b c = true → lexLe a c = true := by
  intro a
  induction a with
  | nil => intro b c _ _; rfl
  | cons x xs ih =>
    intro b c hab hbc
    cases b with
    | nil => simp [lexLe] at hab
    | cons y ys =>
      cases c with
      | nil => simp [lexLe] at hbc
      | cons z zs =>
        simp only [lexLe, beq_iff_eq] at hab hbc ⊢
        by_cases h1 : x.toNat = y.toNat <;> by_cases h2 : y.toNat = z.toNat
        · rw [if_pos h1] at hab
          rw [if_pos h2] at hbc
          rw [if_pos (h1.trans h2)]
          exact ih ys zs hab hbc
        · rw [if_pos h1] at hab
          rw [if_neg h2, decide_eq_true_eq] at hbc
          rw [if_neg (by omega), decide_eq_true_eq]
          omega
        · rw [if_neg h1, decide_eq_true_eq] at hab
          rw [if_pos h2] at hbc
          rw [if_neg (by omega), decide_eq_true_eq]
          omega
        · rw [if_neg h1, decide_eq_true_eq] at hab
          rw [if_neg h2, decide_eq_true_eq] at hbc
          rw [if_neg (by omega), decide_eq_true_eq]
          omega

theorem strRel_total (a b : String) : strRel a b ∨ strRel b a :=
  lexLe_total a.data b.data

theorem strRel_trans {a b c : String} (h1 : strRel a b) (h2 : strRel b c) : strRel a c :=
  lexLe_trans a.data b.data c.data h1 h2

theorem insertBy_perm (le : α → α → Bool) (x : α) :
    ∀ l : List α, List.Perm (insertBy le x l) (x :: l) := by
  intro l
  induction l with
  | nil => exact List.Perm.refl _
  | cons y ys ih =>
    by_cases h : le x y = true
    · simp [insertBy, h]
    · simp only [insertBy, h, if_neg, Bool.false_eq_true, not_false_iff]
      exact (ih.cons y).trans (List.Perm.swap x y ys)

theorem sortBy_perm (le : α → α → Bool) : ∀ l : List α, List.Perm (sortBy le l) l := by
  intro l
  induction l with
  | nil => exact List.Perm.refl _
  | cons x xs ih =>
    exact (insertBy_perm le x (sortBy le xs)).trans (ih.cons x)

theorem mem_insertBy (le : α → α → Bool) (x a : α) (l : List α) :
    a ∈ insertBy le x l ↔ a = x ∨ a ∈ l := by
  rw [(insertBy_perm le x l).mem_iff]
  simp

theorem mem_sortBy (le : α → α → Bool) (a : α) (l : List α) :
    a ∈ sortBy le l ↔ a ∈ l :=
  (sortBy_perm le l).mem_iff

theorem nodup_sortBy (le : α → α → Bool) (l : List α) (h : l.Nodup) :
    (sortBy le l).Nodup :=
  ((sortBy_perm le l).nodup_iff).mpr h

theorem sorted_insertBy (x : String) :
    ∀ l : List String, List.Sorted strRel l → List.Sorted strRel (insertBy jsLeStr x l) := by
  intro l
  induction l with
  | nil => intro _; simp [insertBy]
  | cons y ys ih =>
    intro h
    rw [List.sorted_cons] at h
    by_cases hle : jsLeStr x y = true
    · simp only [insertBy, hle, if_pos]
      rw [List.sorted_cons]
      constructor
      · intro b hb
        rcases List.mem_cons.mp hb with rfl | hb'
        · exact hle
        · exact strRel_trans hle (h.1 b hb')
      · rw [List.sorted_cons]
        exact h
    · simp only [insertBy, hle, Bool.false_eq_true, if_neg, not_false_iff]
      rw [List.sorted_cons]
      constructor
      · intro b hb
        rcases (mem_insertBy jsLeStr x b ys).mp hb with rfl | hb'
        · rcases strRel_total b y with hr | hr
          · exact absurd hr hle
          · exact hr
        · exact h.1 b hb'
      · exact ih h.2

theorem sorted_sortBy : ∀ l : List String, List.Sorted strRel (sortBy jsLeStr l) := by
  intro l
  induction l with
  | nil => simp [sortBy]
  | cons x xs ih => exact sorted_insertBy x (sortBy jsLeStr xs) ih

theorem mem_setAdd (l : List String) (x a : String) :
    a ∈ setAdd l x ↔ a ∈ l ∨ a = x := by
  unfold setAdd
  by_cases hx : x ∈ l
  · simp only [hx, if_pos]
    constructor
    · exact Or.inl
    · rintro (h | rfl)
      · exact h
      · exact hx
  · simp [hx]

theorem nodup_setAdd (l : List String) (x : String) (h : l.Nodup) :
    (setAdd l x).Nodup := by
  unfold setAdd
  by_cases hx : x ∈ l
  · simpa [hx]
  · simp [hx, List.nodup_append, h]

theorem mem_foldl_setAdd :
    ∀ (l acc : List String) (a : String),
      a ∈ List.foldl setAdd acc l ↔ a ∈ acc ∨ a ∈ l := by
  intro l
  induction l with
  | nil => intro acc a; simp
  | cons x xs ih =>
    intro acc a
    rw [List.foldl_cons, ih (setAdd acc x) a, mem_setAdd]
    simp only [List.mem_cons]
    tauto

theorem nodup_foldl_setAdd :
    ∀ (l acc : List String), acc.Nodup → (List.foldl setAdd acc l).Nodup := by
  intro l
  induction l with
  | nil => intro acc h; simpa
  | cons x xs ih =>
    intro acc h
    exact ih (setAdd acc x) (nodup_setAdd acc x h)

theorem mem_jsSetOf (l : List String) (a : String) : a ∈ jsSetOf l ↔ a ∈ l := by
  unfold jsSetOf
  rw [mem_foldl_setAdd]
  simp

theorem nodup_jsSetOf (l : List String) : (jsSetOf l).Nodup :=
  nodup_foldl_setAdd l [] List.nodup_nil

/-! ### Object read/write lemmas and the merge characterisation -/

theorem objGet_objSet_self (m : Fm) (k : String) (v : Value) :
    objGet (objSet m k v) k = some v := by
  induction m with
  | nil => simp [objSet, objGet]
  | cons kv rest ih =>
    obtain ⟨k', v'⟩ := kv
    by_cases h : (k' == k) = true
    · simp [objSet, objGet, h]
    · simp [objSet, objGet, h, ih]

theorem objGet_objSet_ne (m : Fm) (k k' : String) (v : Value) (h : k ≠ k') :
    objGet (objSet m k v) k' = objGet m k' := by
  induction m with
  | nil => simp [objSet, objGet, h]
  | cons kv rest ih =>
    obtain ⟨k0, v0⟩ := kv
    by_cases h0 : (k0 == k) = true
    · have hk0 : k0 = k := by simpa using h0
      subst hk0
      simp [objSet, objGet, h0, h]
    · simp only [objSet, h0, Bool.false_eq_true, if_neg, not_false_iff]
      by_cases h1 : (k0 == k') = true
      · simp [objGet, h1]
      · simp [objGet, h1, ih]

theorem objGet_mergeTitle_ne (m : Fm) (i : InferredMetadata) (k : String) (h : k ≠ "title") :
    objGet (mergeTitle m i) k = objGet m k := by
  unfold mergeTitle
  by_cases hc : truthyVal (objGet m "title") = true
  · simp [hc]
  · simp only [hc, Bool.not_eq_true', Bool.not_true, if_pos]
    rw [objGet_objSet_ne _ _ _ _ (fun e => h e.symm)]

theorem objGet_mergeOptField_ne (m : Fm) (fk : String) (o : Option String) (k : String)
    (h : k ≠ fk) : objGet (mergeOptField m fk o) k = objGet m k := by
  unfold mergeOptField
  cases o with
  | none => rfl
  | some d =>
    by_cases hc : (!(truthyVal (objGet m fk)) && !(d == "")) = true
    · simp only [hc, if_pos]
      rw [objGet_objSet_ne _ _ _ _ (fun e => h e.symm)]
    · simp [hc]

theorem objGet_mergeStatus_ne (m : Fm) (i : InferredMetadata) (k : String) (h : k ≠ "status") :
    objGet (mergeStatus m i) k = objGet m k := by
  unfold mergeStatus
  by_cases hc : truthyVal (objGet m "status") = true
  · simp [hc]
  · simp only [hc, Bool.not_eq_true', Bool.not_true, if_pos]
    rw [objGet_objSet_ne _ _ _ _ (fun e => h e.symm)]

theorem objGet_mergeTags_ne (m : Fm) (i : InferredMetadata) (k : String) (h : k ≠ "tags") :
    objGet (mergeTags m i) k = objGet m k := by
  unfold mergeTags
  rw [objGet_objSet_ne _ _ _ _ (fun e => h e.symm)]

theorem objGet_mergeTitle_self (m : Fm) (i : InferredMetadata) :
    objGet (mergeTitle m i) "title" =
      if truthyVal (objGet m "title") = true then objGet m "title"
      else some (.str i.title) := by
  unfold mergeTitle
  by_cases hc : truthyVal (objGet m "title") = true
  · simp [hc]
  · simp [hc, objGet_objSet_self]

theorem objGet_mergeOptField_self (m : Fm) (fk : String) (o : Option String) :
    objGet (mergeOptField m fk o) fk =
      match o with
      | some d =>
        if (!(truthyVal (objGet m fk)) && !(d == "")) = true then some (.str d)
        else objGet m fk
      | none => objGet m fk := by
  unfold mergeOptField
  cases o with
  | none => rfl
  | some d =>
    by_cases hc : (!(truthyVal (objGet m fk)) && !(d == "")) = true
    · simp [hc, objGet_objSet_self]
    · simp [hc]

theorem objGet_mergeStatus_self (m : Fm) (i : InferredMetadata) :
    objGet (mergeStatus m i) "status" =
      if truthyVal (objGet m "status") = true then objGet m "status"
      else some (.str i.status) := by
  unfold mergeStatus
  by_cases hc : truthyVal (objGet m "status") = true
  · simp [hc]
  · simp [hc, objGet_objSet_self]

theorem objGet_mergeTags_self (m : Fm) (i : InferredMetadata) :
    objGet (mergeTags m i) "tags" =
      some (.list (mergedTagList (objGet m "tags") i.tags)) :=
  objGet_objSet_self m "tags" _

/-! ### Spec-side reading of the merge (spec §4.5) -/

/-- Spec §4.5: a field is "present and non-empty" — an entry exists and,
for a scalar, its string is non-empty (an array value counts as present
and non-empty). -/
def presentNonEmpty : Option Value → Bool
  | none => false
  | some (.str s) => s.length != 0
  | some (.list _) => true

/-- Spec §4.5 for `title`/`status`: keep the existing value if present and
non-empty; otherwise adopt the (always present) inferred value. -/
def specKeep (cur : Option Value) (v : String) : Option Value :=
  if presentNonEmpty cur then cur else some (.str v)

/-- Spec §4.5 for `date`/`category`/`project`/`docType`: keep the existing
value if present and non-empty; otherwise adopt the inferred value if one
is present (and non-empty); otherwise leave the field untouched. -/
def specFill (cur : Option Value) (o : Option String) : Option Value :=
  if presentNonEmpty cur then cur
  else
    match o with
    | some d => if d.length != 0 then some (.str d) else cur
    | none => cur

/-- Spec §4.5 as one equation on reads of the merged mapping: the six known
fields are kept-or-filled, `tags` becomes the sorted deduplicated union,
every other key reads exactly as in the existing mapping. -/
def mergeSpecGet (e : Fm) (i : InferredMetadata) (k : String) : Option Value :=
  if k = "title" then specKeep (objGet e "title") i.title
  else if k = "date" then specFill (objGet e "date") i.date
  else if k = "customer" then specFill (objGet e "customer") i.customer
  else if k = "project" then specFill (objGet e "project") i.project
  else if k = "type" then specFill (objGet e "type") i.typ
  else if k = "status" then specKeep (objGet e "status") i.status
  else if k = "tags" then some (.list (mergedTagList (objGet e "tags") i.tags))
  else objGet e k

theorem strLen_bne_eq (d : String) : (d.length != 0) = !(d == "") := by
  cases d with
  | mk data =>
    cases data with
    | nil => rfl
    | cons c cs =>
      have h : ((⟨c :: cs⟩ : String) == "") = false := by
        rw [beq_eq_false_iff_ne]
        intro e
        have := congrArg String.data e
        simp at this
      rw [h]
      simp [String.length]

theorem presentNonEmpty_eq (v : Option Value) : presentNonEmpty v = truthyVal v := by
  cases v with
  | none => rfl
  | some w =>
    cases w with
    | str s => exact strLen_bne_eq s
    | list xs => rfl

/-- The characterising equation for `mergeFrontmatter` reads. -/
theorem merge_objGet (e : Fm) (i : InferredMetadata) (k : String) :
    objGet (mergeFrontmatter e i) k = mergeSpecGet e i k := by
  unfold mergeFrontmatter mergeSpecGet
  by_cases h1 : k = "title"
  · rw [if_pos h1]
    subst h1
    rw [objGet_mergeTags_ne _ _ _ (by decide), objGet_mergeStatus_ne _ _ _ (by decide),
      objGet_mergeOptField_ne _ _ _ _ (by decide), objGet_mergeOptField_ne _ _ _ _ (by decide),
      objGet_mergeOptField_ne _ _ _ _ (by decide), objGet_mergeOptField_ne _ _ _ _ (by decide),
      objGet_mergeTitle_self]
    unfold specKeep
    rw [presentNonEmpty_eq]
  rw [if_neg h1]
  by_cases h2 : k = "date"
  · rw [if_pos h2]
    subst h2
    rw [objGet_mergeTags_ne _ _ _ (by decide), objGet_mergeStatus_ne _ _ _ (by decide),
      objGet_mergeOptField_ne _ _ _ _ (by decide), objGet_mergeOptField_ne _ _ _ _ (by decide),
      objGet_mergeOptField_ne _ _ _ _ (by decide), objGet_mergeOptField_self,
      objGet_mergeTitle_ne _ _ _ (by decide)]
    unfold specFill
    rw [presentNonEmpty_eq]
    cases i.date with
    | none => simp
    | some d =>
      by_cases ht : truthyVal (objGet e "date") = true
      · simp [ht]
      · simp only [ht, Bool.not_eq_true', Bool.not_true, Bool.true_and, if_neg,
          Bool.false_eq_true, not_false_iff, if_pos]
        rw [strLen_bne_eq]
        simp
  rw [if_neg h2]
  by_cases h3 : k = "customer"
  · rw [if_pos h3]
    subst h3
    rw [objGet_mergeTags_ne _ _ _ (by decide), objGet_mergeStatus_ne _ _ _ (by decide),
      objGet_mergeOptField_ne _ _ _ _ (by decide), objGet_mergeOptField_ne _ _ _ _ (by decide),
      objGet_mergeOptField_self, objGet_mergeOptField_ne _ _ _ _ (by decide),
      objGet_mergeTitle_ne _ _ _ (by decide)]
    unfold specFill
    rw [presentNonEmpty_eq]
    cases i.customer with
    | none => simp
    | some d =>
      by_cases ht : truthyVal (objGet e "customer") = true
      · simp [ht]
      · simp only [ht, Bool.not_eq_true', Bool.not_true, Bool.true_and, if_neg,
          Bool.false_eq_true, not_false_iff, if_pos]
        rw [strLen_bne_eq]
        simp
  rw [if_neg h3]
  by_cases h4 : k = "project"
  · rw [if_pos h4]
    subst h4
    rw [objGet_mergeTags_ne _ _ _ (by decide), objGet_mergeStatus_ne _ _ _ (by decide),
      objGet_mergeOptField_ne _ _ _ _ (by decide), objGet_mergeOptField_self,
      objGet_mergeOptField_ne _ _ _ _ (by decide), objGet_mergeOptField_ne _ _ _ _ (by decide),
      objGet_mergeTitle_ne _ _ _ (by decide)]
    unfold specFill
    rw [presentNonEmpty_eq]
    cases i.project with
    | none => simp
    | some d =>
      by_cases ht : truthyVal (objGet e "project") = true
      · simp [ht]
      · simp only [ht, Bool.not_eq_true', Bool.not_true, Bool.true_and, if_neg,
          Bool.false_eq_true, not_false_iff, if_pos]
        rw [strLen_bne_eq]
        simp
  rw [if_neg h4]
  by_cases h5 : k = "type"
  · rw [if_pos h5]
    subst h5
    rw [objGet_mergeTags_ne _ _ _ (by decide), objGet_mergeStatus_ne _ _ _ (by decide),
      objGet_mergeOptField_self, objGet_mergeOptField_ne _ _ _ _ (by decide),
      objGet_mergeOptField_ne _ _ _ _ (by decide), objGet_mergeOptField_ne _ _ _ _ (by decide),
      objGet_mergeTitle_ne _ _ _ (by decide)]
    unfold specFill
    rw [presentNonEmpty_eq]
    cases i.typ with
    | none => simp
    | some d =>
      by_cases ht : truthyVal (objGet e "type") = true
      · simp [ht]
      · simp only [ht, Bool.not_eq_true', Bool.not_true, Bool.true_and, if_neg,
          Bool.false_eq_true, not_false_iff, if_pos]
        rw [strLen_bne_eq]
        simp
  rw [if_neg h5]
  by_cases h6 : k = "status"
  · rw [if_pos h6]
    subst h6
    rw [objGet_mergeTags_ne _ _ _ (by decide), objGet_mergeStatus_self,
      objGet_mergeOptField_ne _ _ _ _ (by decide), objGet_mergeOptField_ne _ _ _ _ (by decide),
      objGet_mergeOptField_ne _ _ _ _ (by decide), objGet_mergeOptField_ne _ _ _ _ (by decide),
      objGet_mergeTitle_ne _ _ _ (by decide)]
    unfold specKeep
    rw [presentNonEmpty_eq]
  rw [if_neg h6]
  by_cases h7 : k = "tags"
  · rw [if_pos h7]
    subst h7
    rw [objGet_mergeTags_self,
      objGet_mergeStatus_ne _ _ _ (by decide),
      objGet_mergeOptField_ne _ _ _ _ (by decide), objGet_mergeOptField_ne _ _ _ _ (by decide),
      objGet_mergeOptField_ne _ _ _ _ (by decide), objGet_mergeOptField_ne _ _ _ _ (by decide),
      objGet_mergeTitle_ne _ _ _ (by decide)]
  rw [if_neg h7]
  rw [objGet_mergeTags_ne _ _ _ h7, objGet_mergeStatus_ne _ _ _ h6,
    objGet_mergeOptField_ne _ _ _ _ h5, objGet_mergeOptField_ne _ _ _ _ h4,
    objGet_mergeOptField_ne _ _ _ _ h3, objGet_mergeOptField_ne _ _ _ _ h2,
    objGet_mergeTitle_ne _ _ _ h1]

theorem specKeep_isSome (cur : Option Value) (v : String) : (specKeep cur v).isSome = true := by
  unfold specKeep
  by_cases h : presentNonEmpty cur = true
  · cases cur with
    | none => simp [presentNonEmpty] at h
    | some w => simp [h]
  · simp [h]

theorem specFill_isSome (cur : Option Value) (o : Option String) (h : cur.isSome = true) :
    (specFill cur o).isSome = true := by
  unfold specFill
  by_cases hp : presentNonEmpty cur = true
  · simp [hp, h]
  · simp only [hp, Bool.false_eq_true, if_neg, not_false_iff]
    cases o with
    | none => simpa using h
    | some d =>
      by_cases hd : (d.length != 0) = true
      · simp [hd]
      · simpa [hd] using h

/-- C5.  For every existing mapping and every inferred metadata value, the
merge keeps each of title, date, customer, project, type and status
whenever the field is present and non-empty, adopts the inferred value only
when the field is absent or empty (and, for date/customer/project/type,
only when an inferred value is present), passes every other existing key
through unchanged — and never deletes an existing field. -/
theorem mergeFrontmatter_fills_gaps_only :
    (∀ (e : Fm) (i : InferredMetadata) (k : String),
      objGet (mergeFrontmatter e i) k = mergeSpecGet e i k) ∧
    (∀ (e : Fm) (i : InferredMetadata) (k : String),
      (!(objGet e k).isSome || (objGet (mergeFrontmatter e i) k).isSome) = true) := by
  refine ⟨merge_objGet, ?_⟩
  intro e i k
  cases hk : objGet e k with
  | none => simp
  | some v =>
    simp only [Option.isSome_some, Bool.not_true, Bool.false_or]
    rw [merge_objGet]
    unfold mergeSpecGet
    by_cases h1 : k = "title"
    · rw [if_pos h1]; exact specKeep_isSome _ _
    rw [if_neg h1]
    by_cases h2 : k = "date"
    · rw [if_pos h2]; exact specFill_isSome _ _ (by rw [← h2, hk]; rfl)
    rw [if_neg h2]
    by_cases h3 : k = "customer"
    · rw [if_pos h3]; exact specFill_isSome _ _ (by rw [← h3, hk]; rfl)
    rw [if_neg h3]
    by_cases h4 : k = "project"
    · rw [if_pos h4]; exact specFill_isSome _ _ (by rw [← h4, hk]; rfl)
    rw [if_neg h4]
    by_cases h5 : k = "type"
    · rw [if_pos h5]; exact specFill_isSome _ _ (by rw [← h5, hk]; rfl)
    rw [if_neg h5]
    by_cases h6 : k = "status"
    · rw [if_pos h6]; exact specKeep_isSome _ _
    rw [if_neg h6]
    by_cases h7 : k = "tags"
    · rw [if_pos h7]; rfl
    rw [if_neg h7, hk]
    rfl

/-- C8.  For all inputs, the `tags` field of the merge result is the union
of the existing tags (as the source iterates them) and the inferred tags,
duplicate-free, and sorted in the code-point lexicographic order used by
`Array.prototype.sort`. -/
theorem mergeFrontmatter_tags_sorted_union :
    ∀ (e : Fm) (i : InferredMetadata),
      objGet (mergeFrontmatter e i) "tags" =
        some (.list (mergedTagList (objGet e "tags") i.tags)) ∧
      List.Sorted strRel (mergedTagList (objGet e "tags") i.tags) ∧
      (mergedTagList (objGet e "tags") i.tags).Nodup ∧
      ∀ t, t ∈ mergedTagList (objGet e "tags") i.tags ↔
        (t ∈ tagsIter (objGet e "tags") ∨ t ∈ i.tags) := by
  intro e i
  refine ⟨?_, ?_, ?_, ?_⟩
  · rw [merge_objGet]
    unfold mergeSpecGet
    rw [if_neg (by decide), if_neg (by decide), if_neg (by decide), if_neg (by decide),
      if_neg (by decide), if_neg (by decide), if_pos rfl]
  · unfold mergedTagList
    exact sorted_sortBy _
  · unfold mergedTagList
    exact nodup_sortBy _ _ (nodup_jsSetOf _)
  · intro t
    unfold mergedTagList
    rw [mem_sortBy, mem_jsSetOf, List.mem_append, mem_jsSetOf, mem_jsSetOf]

/-! ## Filesystem events and tool handlers

Each tool handler of part_002 is embedded as a pure function from its
arguments and a filesystem snapshot to the list of I/O events it performs,
in order, together with its response.  The pure guard check is recorded as
a `guardE` event so that "the guard is invoked before any I/O" is visible
in the trace; `Date`-derived strings are passed as arguments. -/

inductive Event where
  | guardE (p : String) (ok : Bool)
  | readE (p : String)
  | accessE (p : String)
  | mkdirE (p : String)
  | writeE (p : String) (content : String)
  | renameE (src dst : String)
  | unlinkE (p : String)
  | invalidateE
deriving DecidableEq, Repr

def FileSys := String → Option String

structure ToolResult where
  trace : List Event
  text : String
  isError : Bool
deriving DecidableEq, Repr

def isGuardE : Event → Bool
  | .guardE _ _ => true
  | _ => false

def isWriteE : Event → Bool
  | .writeE _ _ => true
  | _ => false

def isReadE : Event → Bool
  | .readE _ => true
  | _ => false

def isInvalidateE : Event → Bool
  | .invalidateE => true
  | _ => false

/-- Write, rename and delete are the mutating events. -/
def isMutE : Event → Bool
  | .writeE _ _ => true
  | .renameE _ _ => true
  | .unlinkE _ => true
  | _ => false

/-- The effect of one event on the filesystem snapshot. -/
def applyEvent (fs : FileSys) : Event → FileSys
  | .writeE p c => fun q => if q = p then some c else fs q
  | .renameE a b => fun q => if q = b then fs a else if q = a then none else fs q
  | .unlinkE p => fun q => if q = p then none else fs q
  | _ => fs

def applyEvents (fs : FileSys) : List Event → FileSys
  | [] => fs
  | e :: rest => applyEvents (applyEvent fs e) rest

/-! ### Configuration (part_002 lines 10–29 and 60, default values) -/

def VAULT_PATH : String :=
  "/Users/kevin/Library/Mobile Documents/iCloud~md~obsidian/Documents/KMW"

def todoFileRel : String := "KMW/TODO.md"

def inboxFolder : String := "Inbox"

def archiveFolder : String := "Archive"

def dailyFolderName : String := "Daily"

def TODO_FILE : String := pathJoin VAULT_PATH todoFileRel

def DEFAULT_INBOX : String := inboxFolder

def VAULT_KMW_PATH : String := pathJoin VAULT_PATH "KMW"

/-! ### add_todo (part_002 lines 372–423) -/

/-- Source `add_todo`: read the TODO file (missing means empty), append the
formatted item, ensure the directory, write — no guard and no cache
invalidation appear in the handler. -/
def addTodo (text : String) (tags : Option (List String)) (fs : FileSys) : ToolResult :=
  let content := (fs TODO_FILE).getD ""
  let tagString :=
    match tags with
    | some ts => if ts.length > 0 then " " ++ jsJoin " " ts else ""
    | none => ""
  let todoItem := "- [ ]" ++ tagString ++ " " ++ text
  let newContent :=
    if jsTrim content ≠ "" then jsTrimEnd content ++ "\n" ++ todoItem ++ "\n"
    else todoItem ++ "\n"
  { trace := [.readE TODO_FILE, .mkdirE (dirname TODO_FILE), .writeE TODO_FILE newContent]
    text := "Added todo: " ++ todoItem ++ "\nFile: " ++ TODO_FILE
    isError := false }

/-! ### create_note (part_002 lines 425–518) -/

/-- `folder || DEFAULT_INBOX`. -/
def targetFolderOf (folder : Option String) : String :=
  match folder with
  | some f => if f ≠ "" then f else DEFAULT_INBOX
  | none => DEFAULT_INBOX

def isSlugCh (c : Char) : Bool :=
  ('a' ≤ c && c ≤ 'z') || ('0' ≤ c && c ≤ '9')

/-- `.replace(/[^a-z0-9]+/g, "-")` as a one-pass machine (`true` = inside a
run already replaced). -/
def slugGo : Bool → List Char → List Char
  | _, [] => []
  | inRun, c :: rest =>
    if isSlugCh c then c :: slugGo false rest
    else if inRun then slugGo true rest
    else '-' :: slugGo true rest

/-- `.replace(/^-|-$/g, "")`: one leading and one trailing dash removed. -/
def stripDashes (l : List Char) : List Char :=
  let l1 := match l with
    | '-' :: t => t
    | t => t
  match l1.reverse with
  | '-' :: t => t.reverse
  | _ => l1

/-- Filename generation of `create_note`. -/
def slugify (title : String) : String :=
  ⟨stripDashes (slugGo false (jsToLower title).data)⟩

/-- Source `create_note`: guard the target folder, build the filename from
the title, ensure the directory, refuse to overwrite an existing note,
else write and invalidate the cache. -/
def createNote (title content : String) (folder : Option String) (tags : Option (List String))
    (nowIso : String) (fs : FileSys) : ToolResult :=
  let targetFolder := targetFolderOf folder
  let folderPath := pathJoin VAULT_KMW_PATH targetFolder
  if isPathWithinVault folderPath VAULT_KMW_PATH = false then
    { trace := [.guardE folderPath false]
      text := "Error: Folder path must be within the vault"
      isError := true }
  else
    let filename := slugify title ++ ".md"
    let filepath := pathJoin folderPath filename
    let tagsArray := tags.getD []
    let frontmatter := "---\ntitle: \"" ++ title ++ "\"\ndate: " ++ nowIso ++ "\ntags: ["
      ++ jsJoin ", " (tagsArray.map (fun t => "\"" ++ t ++ "\"")) ++ "]\n---"
    let noteContent := frontmatter ++ "\n\n" ++ content ++ "\n"
    if (fs filepath).isSome then
      { trace := [.guardE folderPath true, .mkdirE folderPath, .accessE filepath]
        text := "Note already exists: " ++ filename ++ "\nLocation: " ++ filepath
          ++ "\nChoose a different title or delete the existing note."
        isError := true }
    else
      { trace := [.guardE folderPath true, .mkdirE folderPath, .accessE filepath,
          .writeE filepath noteContent, .invalidateE]
        text := "Created note: " ++ filename ++ "\nLocation: " ++ filepath
        isError := false }

/-! ### update_note (part_002 lines 1256–1355) -/

/-- JS template interpolation of a restricted value (`${value}`). -/
def valueText : Value → String
  | .str s => s
  | .list xs => jsJoin "," xs

/-- Source `update_note`: guard the path, read the note (missing is an
error), replace or append the body, merge tags and properties into the
metadata block, rewrite the whole file, invalidate the cache. -/
def updateNote (notePath : String) (newContent append : Option String)
    (tags : Option (List String)) (props : Option (List (String × Value)))
    (fs : FileSys) : ToolResult :=
  let fullPath := pathJoin VAULT_KMW_PATH notePath
  if isPathWithinVault fullPath VAULT_KMW_PATH = false then
    { trace := [.guardE fullPath false]
      text := "Error: Path must be within the vault"
      isError := true }
  else
    match fs fullPath with
    | none =>
      { trace := [.guardE fullPath true, .readE fullPath]
        text := "Note not found: " ++ notePath
        isError := true }
    | some fileContent =>
      let parsed := parseFrontmatterFm fileContent
      let fm0 := match parsed with
        | some (fm, _) => fm
        | none => []
      let body0 := match parsed with
        | some (_, b) => if b ≠ "" then b else fileContent
        | none => fileContent
      let body1 := match newContent with
        | some v => v
        | none => body0
      let body2 := match append with
        | some a => if a ≠ "" then jsTrimEnd body1 ++ "\n\n" ++ a else body1
        | none => body1
      let fm1 := match tags with
        | some ts =>
          if ts.length > 0 then
            objSet fm0 "tags"
              (.list (sortBy jsLeStr (ts.foldl setAdd (jsSetOf (tagsIter (objGet fm0 "tags"))))))
          else fm0
        | none => fm0
      let fm2 := match props with
        | some ps => ps.foldl (fun m kv => objSet m kv.1 kv.2) fm1
        | none => fm1
      let changes :=
        (match newContent with
          | some _ => ["replaced content"]
          | none => [])
        ++ (match append with
          | some a => if a ≠ "" then ["appended content"] else []
          | none => [])
        ++ (match tags with
          | some ts => if ts.length > 0 then ["added tags: " ++ jsJoin ", " ts] else []
          | none => [])
        ++ (match props with
          | some ps => ps.map (fun kv => "set " ++ kv.1 ++ "=" ++ valueText kv.2)
          | none => [])
      { trace := [.guardE fullPath true, .readE fullPath,
          .writeE fullPath (serializeNote fm2 body2), .invalidateE]
        text := "Updated note: " ++ notePath ++ "\nChanges: " ++ jsJoin ", " changes
        isError := false }

/-! ### delete_note (part_002 lines 1357–1451) -/

/-- Source `delete_note`: guard the note path, check it exists, then either
unlink it (permanent) or rename it into the archive folder — adding a
timestamp to the name if the archive already holds one — and invalidate
the cache.  Only the source path is guarded; the archive destination is
derived from configuration. -/
def deleteNote (notePath : String) (permanent : Option Bool) (timestamp : String)
    (fs : FileSys) : ToolResult :=
  let fullPath := pathJoin VAULT_KMW_PATH notePath
  if isPathWithinVault fullPath VAULT_KMW_PATH = false then
    { trace := [.guardE fullPath false]
      text := "Error: Path must be within the vault"
      isError := true }
  else if (fs fullPath).isNone then
    { trace := [.guardE fullPath true, .accessE fullPath]
      text := "Note not found: " ++ notePath
      isError := true }
  else if permanent.getD false then
    { trace := [.guardE fullPath true, .accessE fullPath, .unlinkE fullPath, .invalidateE]
      text := "Permanently deleted: " ++ notePath
      isError := false }
  else
    let fileName := basename notePath
    let archivePath := pathJoin VAULT_KMW_PATH archiveFolder
    let archiveFilePath := pathJoin archivePath fileName
    if (fs archiveFilePath).isSome then
      let ext := extname fileName
      let baseName := basenameExt fileName ext
      let newFileName := baseName ++ "-" ++ timestamp ++ ext
      let newArchiveFilePath := pathJoin archivePath newFileName
      { trace := [.guardE fullPath true, .accessE fullPath, .mkdirE archivePath,
          .accessE archiveFilePath, .renameE fullPath newArchiveFilePath, .invalidateE]
        text := "Archived: " ++ notePath ++ " → " ++ archiveFolder ++ "/" ++ newFileName
        isError := false }
    else
      { trace := [.guardE fullPath true, .accessE fullPath, .mkdirE archivePath,
          .accessE archiveFilePath, .renameE fullPath archiveFilePath, .invalidateE]
        text := "Archived: " ++ notePath ++ " → " ++ archiveFolder ++ "/" ++ fileName
        isError := false }

/-! ### move_note (part_002 lines 1674–1764) -/

/-- Source `move_note`: guard source and destination, check the source
exists and the destination does not, ensure the destination folder, rename,
invalidate the cache. -/
def moveNote (source destination : String) (fs : FileSys) : ToolResult :=
  let sourcePath := pathJoin VAULT_KMW_PATH source
  let fileName := basename source
  let destFolder := pathJoin VAULT_KMW_PATH destination
  let destPath := pathJoin destFolder fileName
  if isPathWithinVault sourcePath VAULT_KMW_PATH = false then
    { trace := [.guardE sourcePath false]
      text := "Error: Source path must be within the vault"
      isError := true }
  else if isPathWithinVault destPath VAULT_KMW_PATH = false then
    { trace := [.guardE sourcePath true, .guardE destPath false]
      text := "Error: Destination path must be within the vault"
      isError := true }
  else if (fs sourcePath).isNone then
    { trace := [.guardE sourcePath true, .guardE destPath true, .accessE sourcePath]
      text := "Source note not found: " ++ source
      isError := true }
  else if (fs destPath).isSome then
    { trace := [.guardE sourcePath true, .guardE destPath true, .accessE sourcePath,
        .accessE destPath]
      text := "A note with this name already exists at destination: " ++ destination ++ "/"
        ++ fileName
      isError := true }
  else
    { trace := [.guardE sourcePath true, .guardE destPath true, .accessE sourcePath,
        .accessE destPath, .mkdirE destFolder, .renameE sourcePath destPath, .invalidateE]
      text := "Moved: " ++ source ++ " → " ++ destination ++ "/" ++ fileName
      isError := false }

/-! ### daily_note (part_002 lines 1453–1566) -/

/-- The date validation regex `^\d{4}-\d{2}-\d{2}$`. -/
def isDateShape (s : String) : Bool :=
  s.data.length == 10 &&
  (s.data.take 4).all isDigitCh &&
  (s.data.drop 4).headD ' ' == '-' &&
  ((s.data.drop 5).take 2).all isDigitCh &&
  (s.data.drop 7).headD ' ' == '-' &&
  ((s.data.drop 8).take 2).all isDigitCh

/-- Index of the last newline in a whitespace run, if any. -/
def lastNlIdx (run : List Char) : Option Nat :=
  match run.reverse.findIdx? (· == '\n') with
  | some j => some (run.length - 1 - j)
  | none => none

/-- Match of `^## S\s*$` (multiline) starting at this position: requires
the literal header, then a greedy whitespace run backtracked to the last
position standing at a line end (or the end of the text).  Returns the
length of the match. -/
def matchSectionAt (hdr : List Char) (t : List Char) : Option Nat :=
  if startsWithL hdr t then
    let after := t.drop hdr.length
    let run := after.takeWhile jsWs
    if run.length = after.length then some (hdr.length + run.length)
    else
      match lastNlIdx run with
      | some i => some (hdr.length + i)
      | none => none
  else none

/-- First multiline match of the section header: scan the positions that
start a line. -/
def findSectionScan (hdr : List Char) : Bool → List Char → Nat → Option (Nat × Nat)
  | _, [], _ => none
  | atStart, c :: rest, pos =>
    if atStart then
      match matchSectionAt hdr (c :: rest) with
      | some len => some (pos, len)
      | none => findSectionScan hdr (c == '\n') rest (pos + 1)
    else findSectionScan hdr (c == '\n') rest (pos + 1)

/-- First match of `/^## /m`: the first line-start position carrying the
heading marker. -/
def findHdrScan : Bool → List Char → Nat → Option Nat
  | _, [], _ => none
  | atStart, c :: rest, pos =>
    if atStart && startsWithL ("## ".data) (c :: rest) then some pos
    else findHdrScan (c == '\n') rest (pos + 1)

/-- The append-under-a-section logic of `daily_note` for an existing note
(`section` is treated as regex-literal text, which is all the source's
callers use). -/
def appendWithSection (existingContent sectionName content : String) : String :=
  let E := existingContent.data
  match findSectionScan ("## ".data ++ sectionName.data) true E 0 with
  | some (sectionStart, matchLen) =>
    let afterSection := E.drop (sectionStart + matchLen)
    match findHdrScan true afterSection 0 with
    | some p =>
      let insertPoint := sectionStart + matchLen + p
      jsTrimEnd ⟨E.take insertPoint⟩ ++ "\n\n" ++ content ++ "\n\n" ++ (⟨E.drop insertPoint⟩ : String)
    | none => jsTrimEnd existingContent ++ "\n\n" ++ content ++ "\n"
  | none =>
    jsTrimEnd existingContent ++ "\n\n## " ++ sectionName ++ "\n\n" ++ content ++ "\n"

/-- Source `daily_note`: default the date to today, validate its shape,
ensure the daily folder, then create the note with fixed metadata or
append to the existing one (under the section if given) — no guard call
appears in the handler; the cache is invalidated after the write. -/
def dailyNote (content : String) (date : Option String) (sectionName : Option String)
    (todayStr : String) (fs : FileSys) : ToolResult :=
  let targetDate := match date with
    | some d => if d ≠ "" then d else todayStr
    | none => todayStr
  if isDateShape targetDate = false then
    { trace := []
      text := "Error: Date must be in YYYY-MM-DD format"
      isError := true }
  else
    let dailyFolder := pathJoin VAULT_KMW_PATH dailyFolderName
    let fileName := targetDate ++ ".md"
    let fullPath := pathJoin dailyFolder fileName
    match fs fullPath with
    | none =>
      let fmStr := dumpFm [("title", .str ("Daily Note - " ++ targetDate)),
        ("date", .str targetDate), ("type", .str "daily"), ("tags", .list ["daily"])]
      let newFileContent := match sectionName with
        | some s =>
          if s ≠ "" then "---\n" ++ fmStr ++ "---\n\n## " ++ s ++ "\n\n" ++ content ++ "\n"
          else "---\n" ++ fmStr ++ "---\n\n" ++ content ++ "\n"
        | none => "---\n" ++ fmStr ++ "---\n\n" ++ content ++ "\n"
      { trace := [.mkdirE dailyFolder, .readE fullPath, .writeE fullPath newFileContent,
          .invalidateE]
        text := "Created daily note: " ++ dailyFolderName ++ "/" ++ fileName
        isError := false }
    | some existingContent =>
      let newFileContent := match sectionName with
        | some s =>
          if s ≠ "" then appendWithSection existingContent s content
          else jsTrimEnd existingContent ++ "\n\n" ++ content ++ "\n"
        | none => jsTrimEnd existingContent ++ "\n\n" ++ content ++ "\n"
      { trace := [.mkdirE dailyFolder, .readE fullPath, .writeE fullPath newFileContent,
          .invalidateE]
        text := "Updated daily note: " ++ dailyFolderName ++ "/" ++ fileName
        isError := false }

/-! ### complete_todo (part_002 lines 1136–1254) -/

/-- `line.replace(/\[\s\]/, '[x]')` (first occurrence only). -/
def boxGo : List Char → List Char
  | [] => []
  | '[' :: c :: ']' :: rest =>
    if jsWs c then '[' :: 'x' :: ']' :: rest
    else '[' :: boxGo (c :: ']' :: rest)
  | c :: rest => c :: boxGo rest

/-- The candidate-list message of the ambiguous-match branch. -/
def ambiguousMsg (s : String) (found : List TodoItem) : String :=
  "Multiple todos match \"" ++ s ++ "\":\n\n"
    ++ jsJoin "\n" (found.map (fun t => toString t.id ++ ". " ++ t.text))
    ++ "\n\nUse the specific ID to complete one."

/-- The single-line rewrite of `complete_todo` once the target is known. -/
def completeTarget (content : String) (target : TodoItem) : ToolResult :=
  if target.completed then
    { trace := [.readE TODO_FILE]
      text := "Todo is already completed: \"" ++ target.text ++ "\""
      isError := false }
  else
    let lines := splitNl content
    let lineIndex := target.line - 1
    let newLine : String := ⟨boxGo (lines.getD lineIndex "").data⟩
    { trace := [.readE TODO_FILE, .writeE TODO_FILE (joinNl (lines.set lineIndex newLine))]
      text := "Completed todo #" ++ toString target.id ++ ": \"" ++ target.text ++ "\""
      isError := false }

/-- Source `complete_todo`: require `id` or `text`, read the TODO file,
parse it, resolve the target by id or by case-insensitive substring match
(zero matches and more than one match are errors that mutate nothing),
refuse already-completed items, otherwise rewrite exactly the target line's
bracket.  No guard call appears in the handler. -/
def completeTodo (id : Option Nat) (text : Option String) (fs : FileSys) : ToolResult :=
  let idTruthy : Bool := match id with
    | some n => n != 0
    | none => false
  let textTruthy : Bool := match text with
    | some s => s != ""
    | none => false
  if !idTruthy && !textTruthy then
    { trace := []
      text := "Error: Provide either 'id' or 'text' to identify the todo to complete"
      isError := true }
  else
    match fs TODO_FILE with
    | none =>
      { trace := [.readE TODO_FILE]
        text := "No TODO.md file found."
        isError := true }
    | some content =>
      let todos := parseTodos content
      if idTruthy = true then
        match todos.find? (fun t => t.id == id.getD 0) with
        | none =>
          { trace := [.readE TODO_FILE]
            text := "No todo found with ID " ++ toString (id.getD 0)
              ++ ". Use list_todos to see available todos."
            isError := true }
        | some target => completeTarget content target
      else
        let s := text.getD ""
        let found := todos.filter (fun t => jsIncludes (jsToLower t.text) (jsToLower s))
        if found.length == 0 then
          { trace := [.readE TODO_FILE]
            text := "No todo found matching \"" ++ s ++ "\". Use list_todos to see available todos."
            isError := true }
        else if found.length > 1 then
          { trace := [.readE TODO_FILE]
            text := ambiguousMsg s found
            isError := true }
        else
          completeTarget content (found.headD { id := 0, text := "", completed := false, tags := [], line := 1 })

/-! ### enrich_vault (part_002 lines 862–966) -/

/-- A directory tree entry for the recursive walk of `enrich_vault`. -/
inductive FsEntry where
  | file (name : String) (content : String)
  | dir (name : String) (children : List FsEntry)

/-- The per-file pipeline of `enrich_vault`: infer metadata from the
relative path and filename, parse the existing metadata block, infer tags
from the body, merge, fix a malformed date, and re-serialise. -/
def enrichContent (relativePath fileName content : String) : String :=
  let inferred := inferMetadataFromPath relativePath fileName
  let parsed := parseFrontmatterFm content
  let existingFm := match parsed with
    | some (fm, _) => fm
    | none => []
  let body := match parsed with
    | some (_, b) => if b ≠ "" then b else content
    | none => content
  let contentTags := inferTagsFromContent body inferred.tags
  let inferred2 := { inferred with tags := jsSetOf contentTags }
  let merged := mergeFrontmatter existingFm inferred2
  let merged2 := match objGet merged "date" with
    | some v =>
      if truthyVal (some v) then
        match v with
        | .str d => objSet merged "date" (.str (fixMalformedDate d fileName))
        | .list _ => merged
      else merged
    | none => merged
  serializeNote merged2 body

mutual

/-- One entry of the `processDir` walk: dot-names are skipped entirely,
directories recurse, `.md` files are read and rewritten in place. -/
def enrichEntry (dirPath relPath : String) : FsEntry → List Event
  | .file name content =>
    if jsStartsWith name "." then []
    else if jsEndsWith name ".md" then
      [.readE (pathJoin dirPath name),
       .writeE (pathJoin dirPath name)
         (enrichContent (if relPath = "" then name else relPath ++ "/" ++ name) name content)]
    else []
  | .dir name children =>
    if jsStartsWith name "." then []
    else enrichEntries (pathJoin dirPath name)
      (if relPath = "" then name else relPath ++ "/" ++ name) children

def enrichEntries (dirPath relPath : String) : List FsEntry → List Event
  | [] => []
  | e :: rest => enrichEntry dirPath relPath e ++ enrichEntries dirPath relPath rest

end

/-- Source `enrich_vault`: walk the whole vault rewriting every markdown
file; the handler contains no guard call and no cache invalidation (the
response statistics text is summarised from the trace). -/
def enrichVault (tree : List FsEntry) : ToolResult :=
  let t := enrichEntries VAULT_KMW_PATH "" tree
  { trace := t
    text := "## Vault Enrichment Complete\n\n- **Processed**: "
      ++ toString (t.filter isWriteE).length ++ " markdown files"
    isError := false }

example : (enrichVault [.file "a.md" "hello"]).trace.any isWriteE = true := by decide

/-! ### Trace lemmas -/

mutual

theorem enrichEntry_shape (d r : String) (e : FsEntry) :
    (enrichEntry d r e).all (fun ev => isReadE ev || isWriteE ev) = true := by
  cases e with
  | file name content =>
    unfold enrichEntry
    by_cases h1 : jsStartsWith name "." = true
    · simp [h1]
    · by_cases h2 : jsEndsWith name ".md" = true
      · simp [h1, h2, isReadE, isWriteE]
      · simp [h1, h2]
  | dir name children =>
    unfold enrichEntry
    by_cases h1 : jsStartsWith name "." = true
    · simp [h1]
    · simpa [h1] using enrichEntries_shape (pathJoin d name)
        (if r = "" then name else r ++ "/" ++ name) children

theorem enrichEntries_shape (d r : String) (es : List FsEntry) :
    (enrichEntries d r es).all (fun ev => isReadE ev || isWriteE ev) = true := by
  cases es with
  | nil => rfl
  | cons e rest =>
    unfold enrichEntries
    rw [List.all_append]
    rw [enrichEntry_shape d r e, enrichEntries_shape d r rest]
    rfl

end

/-- C4 (code bug).  `enrich_vault` rewrites markdown files throughout the
vault but never calls the cache invalidation entry point: its event trace
consists of reads and writes only, with no `invalidate` event, so a
statistics query issued within the TTL after `enrich_vault` is served from
the stale cache. -/
theorem enrichVault_never_invalidates :
    (∀ tree, (enrichVault tree).trace.all (fun ev => !isInvalidateE ev) = true) ∧
    (enrichVault [.file "a.md" "hello"]).trace.any isWriteE = true := by
  constructor
  · intro tree
    have h := enrichEntries_shape VAULT_KMW_PATH "" tree
    simp only [enrichVault, List.all_eq_true] at h ⊢
    intro ev hev
    have h' := h ev hev
    cases ev <;> simp_all [isReadE, isWriteE, isInvalidateE]
  · decide

/-- C9.  When `complete_todo` is called with a text query whose
case-insensitive substring match selects more than one checklist item, it
returns an error listing the candidates with their ids, performs no write
(the trace is the single read), and the TODO file's content is unchanged
under the trace's effect. -/
theorem completeTodo_ambiguous_no_write (s content : String) (fs : FileSys)
    (hs : s ≠ "")
    (hfs : fs TODO_FILE = some content)
    (hm : 1 < ((parseTodos content).filter
      (fun t => jsIncludes (jsToLower t.text) (jsToLower s))).length) :
    (completeTodo none (some s) fs).isError = true ∧
    (completeTodo none (some s) fs).trace = [.readE TODO_FILE] ∧
    (completeTodo none (some s) fs).text =
      ambiguousMsg s ((parseTodos content).filter
        (fun t => jsIncludes (jsToLower t.text) (jsToLower s))) ∧
    applyEvents fs (completeTodo none (some s) fs).trace TODO_FILE = some content := by
  have hTrue : (s != "") = true := by simpa using hs
  have h0 : (((parseTodos content).filter
      (fun t => jsIncludes (jsToLower t.text) (jsToLower s))).length == 0) = false := by
    simp only [beq_eq_false_iff_ne]
    omega
  have h1 : ((parseTodos content).filter
      (fun t => jsIncludes (jsToLower t.text) (jsToLower s))).length > 1 := hm
  have h0' : ¬((((parseTodos content).filter
      (fun t => jsIncludes (jsToLower t.text) (jsToLower s))).length == 0) = true) := by
    simp [h0]
  simp only [completeTodo, Option.getD_some, hTrue, hfs, Bool.not_true, Bool.and_false,
    Bool.false_and, Bool.and_self, if_neg, Bool.false_eq_true, not_false_iff, if_false]
  rw [if_neg h0', if_pos h1]
  refine ⟨rfl, rfl, rfl, hfs⟩

/-- Filesystem used by the `complete_todo` ambiguity witness. -/
def fsC9 : FileSys := fun p =>
  if p = TODO_FILE then some "- [ ] alpha q\n- [ ] beta q" else none

theorem completeTodo_ambiguous_no_write_witness :
    (completeTodo none (some "q") fsC9).isError = true ∧
    (completeTodo none (some "q") fsC9).trace = [.readE TODO_FILE] ∧
    (completeTodo none (some "q") fsC9).text =
      ambiguousMsg "q" ((parseTodos "- [ ] alpha q\n- [ ] beta q").filter
        (fun t => jsIncludes (jsToLower t.text) (jsToLower "q"))) ∧
    applyEvents fsC9 (completeTodo none (some "q") fsC9).trace TODO_FILE =
      some "- [ ] alpha q\n- [ ] beta q" :=
  completeTodo_ambiguous_no_write "q" "- [ ] alpha q\n- [ ] beta q" fsC9
    (by decide) (by decide) (by decide)

/-- C10.  When `create_note` targets a filename that already exists in the
destination folder, the handler returns an error naming the existing file,
performs no mutating I/O (the existence check precedes any write), and the
existing note's content is unchanged under the trace's effect. -/
theorem createNote_never_overwrites (title content : String) (folder : Option String)
    (tags : Option (List String)) (nowIso : String) (fs : FileSys) (existing : String)
    (hok : isPathWithinVault (pathJoin VAULT_KMW_PATH (targetFolderOf folder))
      VAULT_KMW_PATH = true)
    (hex : fs (pathJoin (pathJoin VAULT_KMW_PATH (targetFolderOf folder))
      (slugify title ++ ".md")) = some existing) :
    (createNote title content folder tags nowIso fs).isError = true ∧
    (createNote title content folder tags nowIso fs).trace.all (fun ev => !isMutE ev) = true ∧
    (createNote title content folder tags nowIso fs).text =
      "Note already exists: " ++ (slugify title ++ ".md") ++ "\nLocation: "
        ++ pathJoin (pathJoin VAULT_KMW_PATH (targetFolderOf folder)) (slugify title ++ ".md")
        ++ "\nChoose a different title or delete the existing note." ∧
    applyEvents fs (createNote title content folder tags nowIso fs).trace
      (pathJoin (pathJoin VAULT_KMW_PATH (targetFolderOf folder)) (slugify title ++ ".md")) =
      some existing := by
  have hs : (fs (pathJoin (pathJoin VAULT_KMW_PATH (targetFolderOf folder))
      (slugify title ++ ".md"))).isSome = true := by
    rw [hex]; rfl
  simp only [createNote, hok, Bool.true_eq_false, if_neg, not_false_iff, hs, if_pos, if_true]
  simp [applyEvents, applyEvent, hex, isMutE]

/-- Filesystem used by the `create_note` no-overwrite witness: the Inbox
already holds `note.md`. -/
def fsC10 : FileSys := fun p =>
  if p = pathJoin (pathJoin VAULT_KMW_PATH "Inbox") "note.md" then some "old body" else none

theorem createNote_never_overwrites_witness :
    (createNote "Note" "new body" none none "2024-01-01T00:00:00.000Z" fsC10).isError = true ∧
    (createNote "Note" "new body" none none "2024-01-01T00:00:00.000Z" fsC10).trace.all
      (fun ev => !isMutE ev) = true ∧
    (createNote "Note" "new body" none none "2024-01-01T00:00:00.000Z" fsC10).text =
      "Note already exists: " ++ (slugify "Note" ++ ".md") ++ "\nLocation: "
        ++ pathJoin (pathJoin VAULT_KMW_PATH (targetFolderOf none)) (slugify "Note" ++ ".md")
        ++ "\nChoose a different title or delete the existing note." ∧
    applyEvents fsC10 (createNote "Note" "new body" none none "2024-01-01T00:00:00.000Z" fsC10).trace
      (pathJoin (pathJoin VAULT_KMW_PATH (targetFolderOf none)) (slugify "Note" ++ ".md")) =
      some "old body" :=
  createNote_never_overwrites "Note" "new body" none none "2024-01-01T00:00:00.000Z" fsC10
    "old body" (by decide) (by decide)

theorem completeTarget_noGuard (content : String) (target : TodoItem) :
    (completeTarget content target).trace.all (fun ev => !isGuardE ev) = true := by
  unfold completeTarget
  by_cases h : target.completed = true
  · simp [h, isGuardE]
  · simp [h, isGuardE]

theorem completeTodo_noGuard (id : Option Nat) (text : Option String) (fs : FileSys) :
    (completeTodo id text fs).trace.all (fun ev => !isGuardE ev) = true := by
  unfold completeTodo
  repeat' split
  all_goals try exact completeTarget_noGuard _ _
  all_goals try rfl
  all_goals repeat' split
  all_goals try exact completeTarget_noGuard _ _
  all_goals try rfl
  all_goals simp only [List.all_eq_true]
  all_goals intro x hx
  all_goals repeat' split at hx
  all_goals try simp_all [isGuardE, completeTarget]
  all_goals split at hx
  all_goals try simp_all [isGuardE]
  all_goals first
    | (rcases hx with h | h) <;> subst h <;> rfl
    | (subst hx; rfl)

theorem dailyNote_noGuard (content : String) (date sectionName : Option String)
    (todayStr : String) (fs : FileSys) :
    (dailyNote content date sectionName todayStr fs).trace.all (fun ev => !isGuardE ev) = true := by
  unfold dailyNote
  repeat' split
  all_goals try rfl
  all_goals simp only [List.all_eq_true]
  all_goals intro x hx
  all_goals repeat' split at hx
  all_goals try simp_all [isGuardE]
  all_goals try split at hx
  all_goals try simp_all [isGuardE]
  all_goals first
    | (rcases hx with h | h | h | h) <;> subst h <;> rfl
    | (rcases hx with h | h | h) <;> subst h <;> rfl
    | (rcases hx with h | h) <;> subst h <;> rfl
    | (subst hx; rfl)

/-! ### Guard coverage across the mutating handlers (C1) -/

theorem neFalse_eq_true (b : Bool) (h : ¬b = false) : b = true := by
  cases b
  · exact absurd rfl h
  · rfl

/-- C1 counterexample: `add_todo` writes the TODO file (its trace contains
a write event) yet its trace contains no path-guard event at all — the
handler resolves `TODO_FILE` from configuration and writes it without ever
calling `isPathWithinVault`. -/
theorem addTodo_writes_unguarded :
    (addTodo "x" none (fun _ => none)).trace.any isWriteE = true ∧
    (addTodo "x" none (fun _ => none)).trace.all (fun ev => !isGuardE ev) = true := by
  decide

/-- C1 (corrected).  Guard coverage of the eight mutating handlers.  Only
`create_note`, `update_note`, `delete_note` and `move_note` call the
path-containment guard; each of those emits the guard event first (before
any file I/O) and, when the guard fails, returns an error whose trace is
exactly the failed guard check — no write, rename, mkdir, unlink or
invalidate, indeed no file I/O at all.  `move_note` guards both the source
path and the derived destination path, in that order; when the destination
guard fails its trace is exactly the two guard checks.  The remaining four mutating
handlers — `add_todo`, `complete_todo`, `daily_note` and `enrich_vault` —
never invoke the guard at all, refuting the original claim's universal
quantification over all eight (see the separate counterexample showing
`add_todo` writing with no guard event). -/
theorem handlers_guard_policy
    (title content notePath source destination text nowIso timestamp todayStr : String)
    (folder date sectionName newContent app : Option String)
    (tags : Option (List String)) (props : Option (List (String × Value)))
    (permanent : Option Bool) (id : Option Nat) (otext : Option String)
    (tree : List FsEntry) (fs : FileSys) :
    ((createNote title content folder tags nowIso fs).trace.head? =
        some (.guardE (pathJoin VAULT_KMW_PATH (targetFolderOf folder))
          (isPathWithinVault (pathJoin VAULT_KMW_PATH (targetFolderOf folder))
            VAULT_KMW_PATH))) ∧
    (isPathWithinVault (pathJoin VAULT_KMW_PATH (targetFolderOf folder)) VAULT_KMW_PATH
        = false →
      (createNote title content folder tags nowIso fs).isError = true ∧
      (createNote title content folder tags nowIso fs).trace =
        [.guardE (pathJoin VAULT_KMW_PATH (targetFolderOf folder)) false]) ∧
    ((updateNote notePath newContent app tags props fs).trace.head? =
        some (.guardE (pathJoin VAULT_KMW_PATH notePath)
          (isPathWithinVault (pathJoin VAULT_KMW_PATH notePath) VAULT_KMW_PATH))) ∧
    (isPathWithinVault (pathJoin VAULT_KMW_PATH notePath) VAULT_KMW_PATH = false →
      (updateNote notePath newContent app tags props fs).isError = true ∧
      (updateNote notePath newContent app tags props fs).trace =
        [.guardE (pathJoin VAULT_KMW_PATH notePath) false]) ∧
    ((deleteNote notePath permanent timestamp fs).trace.head? =
        some (.guardE (pathJoin VAULT_KMW_PATH notePath)
          (isPathWithinVault (pathJoin VAULT_KMW_PATH notePath) VAULT_KMW_PATH))) ∧
    (isPathWithinVault (pathJoin VAULT_KMW_PATH notePath) VAULT_KMW_PATH = false →
      (deleteNote notePath permanent timestamp fs).isError = true ∧
      (deleteNote notePath permanent timestamp fs).trace =
        [.guardE (pathJoin VAULT_KMW_PATH notePath) false]) ∧
    ((moveNote source destination fs).trace.head? =
        some (.guardE (pathJoin VAULT_KMW_PATH source)
          (isPathWithinVault (pathJoin VAULT_KMW_PATH source) VAULT_KMW_PATH))) ∧
    (isPathWithinVault (pathJoin VAULT_KMW_PATH source) VAULT_KMW_PATH = false →
      (moveNote source destination fs).isError = true ∧
      (moveNote source destination fs).trace =
        [.guardE (pathJoin VAULT_KMW_PATH source) false]) ∧
    (isPathWithinVault (pathJoin VAULT_KMW_PATH source) VAULT_KMW_PATH = true →
      isPathWithinVault (pathJoin (pathJoin VAULT_KMW_PATH destination) (basename source))
        VAULT_KMW_PATH = false →
      (moveNote source destination fs).isError = true ∧
      (moveNote source destination fs).trace =
        [.guardE (pathJoin VAULT_KMW_PATH source) true,
         .guardE (pathJoin (pathJoin VAULT_KMW_PATH destination) (basename source)) false]) ∧
    ((addTodo text tags fs).trace.all (fun ev => !isGuardE ev) = true) ∧
    ((completeTodo id otext fs).trace.all (fun ev => !isGuardE ev) = true) ∧
    ((dailyNote content date sectionName todayStr fs).trace.all
      (fun ev => !isGuardE ev) = true) ∧
    ((enrichVault tree).trace.all (fun ev => !isGuardE ev) = true) := by
  refine ⟨?_, ?_, ?_, ?_, ?_, ?_, ?_, ?_, ?_, ?_, ?_, ?_, ?_⟩
  · simp only [createNote]
    by_cases hg : isPathWithinVault (pathJoin VAULT_KMW_PATH (targetFolderOf folder))
        VAULT_KMW_PATH = false
    · rw [if_pos hg, hg]
      rfl
    · rw [if_neg hg, neFalse_eq_true _ hg]
      split <;> rfl
  · intro hg
    simp only [createNote]
    rw [if_pos hg]
    exact ⟨rfl, rfl⟩
  · simp only [updateNote]
    by_cases hg : isPathWithinVault (pathJoin VAULT_KMW_PATH notePath) VAULT_KMW_PATH = false
    · rw [if_pos hg, hg]
      rfl
    · rw [if_neg hg, neFalse_eq_true _ hg]
      split <;> rfl
  · intro hg
    simp only [updateNote]
    rw [if_pos hg]
    exact ⟨rfl, rfl⟩
  · simp only [deleteNote]
    by_cases hg : isPathWithinVault (pathJoin VAULT_KMW_PATH notePath) VAULT_KMW_PATH = false
    · rw [if_pos hg, hg]
      rfl
    · rw [if_neg hg, neFalse_eq_true _ hg]
      repeat' split
      all_goals rfl
  · intro hg
    simp only [deleteNote]
    rw [if_pos hg]
    exact ⟨rfl, rfl⟩
  · simp only [moveNote]
    by_cases hs : isPathWithinVault (pathJoin VAULT_KMW_PATH source) VAULT_KMW_PATH = false
    · rw [if_pos hs, hs]
      rfl
    · rw [if_neg hs, neFalse_eq_true _ hs]
      repeat' split
      all_goals rfl
  · intro hs
    simp only [moveNote]
    rw [if_pos hs]
    exact ⟨rfl, rfl⟩
  · intro hs hd
    have hs' : ¬ isPathWithinVault (pathJoin VAULT_KMW_PATH source) VAULT_KMW_PATH = false := by
      rw [hs]
      exact fun h => Bool.noConfusion h
    simp only [moveNote]
    rw [if_neg hs', if_pos hd]
    exact ⟨rfl, rfl⟩
  · rfl
  · exact completeTodo_noGuard id otext fs
  · exact dailyNote_noGuard content date sectionName todayStr fs
  · have h := enrichEntries_shape VAULT_KMW_PATH "" tree
    simp only [enrichVault, List.all_eq_true] at h ⊢
    intro ev hev
    have h' := h ev hev
    cases ev <;> simp_all [isReadE, isWriteE, isGuardE]

/-- Empty filesystem used by the guard-policy witness. -/
def fsC1 : FileSys := fun _ => none

theorem handlers_guard_policy_witness :
    ((createNote "T" "c" (some "../../../../../../../../../out") none "now" fsC1).isError
        = true ∧
      (createNote "T" "c" (some "../../../../../../../../../out") none "now" fsC1).trace =
        [.guardE (pathJoin VAULT_KMW_PATH
          (targetFolderOf (some "../../../../../../../../../out"))) false]) ∧
    ((updateNote "../../../../../../../../../escape.md" none none none none fsC1).isError
        = true ∧
      (updateNote "../../../../../../../../../escape.md" none none none none fsC1).trace =
        [.guardE (pathJoin VAULT_KMW_PATH "../../../../../../../../../escape.md") false]) ∧
    ((deleteNote "../../../../../../../../../escape.md" none "ts" fsC1).isError = true ∧
      (deleteNote "../../../../../../../../../escape.md" none "ts" fsC1).trace =
        [.guardE (pathJoin VAULT_KMW_PATH "../../../../../../../../../escape.md") false]) ∧
    ((moveNote "../../../../../../../../../escape.md" "sub" fsC1).isError = true ∧
      (moveNote "../../../../../../../../../escape.md" "sub" fsC1).trace =
        [.guardE (pathJoin VAULT_KMW_PATH "../../../../../../../../../escape.md") false]) ∧
    ((moveNote "a.md" "../../../../../../../../../.." fsC1).isError = true ∧
      (moveNote "a.md" "../../../../../../../../../.." fsC1).trace =
        [.guardE (pathJoin VAULT_KMW_PATH "a.md") true,
         .guardE (pathJoin (pathJoin VAULT_KMW_PATH "../../../../../../../../../..")
           (basename "a.md")) false]) := by
  have h1 := handlers_guard_policy "T" "c" "../../../../../../../../../escape.md"
    "../../../../../../../../../escape.md" "sub" "x" "now" "ts" "today"
    (some "../../../../../../../../../out") none none none none none none none none none []
    fsC1
  have h2 := handlers_guard_policy "T" "c" "n.md" "a.md" "../../../../../../../../../.."
    "x" "now" "ts" "today" none none none none none none none none none none [] fsC1
  exact ⟨h1.2.1 (by decide), h1.2.2.2.1 (by decide), h1.2.2.2.2.2.1 (by decide),
    h1.2.2.2.2.2.2.2.1 (by decide),
    h2.2.2.2.2.2.2.2.2.1 (by decide) (by decide)⟩
